import Mathlib

/-!
A verification development for the purua interpreter (a small Lua-subset
interpreter written in Rust: src/parser.rs, src/state.rs, src/eval.rs).

The Rust sources are shallowly embedded below:
* the parser (built on the combine parser-combinator library) becomes pure
  functions over `List Char`, with the combine semantics of
  consumed-input-sensitive backtracking modelled explicitly;
* the VM state (global table, registry stack, call frames) becomes a record
  threaded through every evaluation function;
* the evaluator becomes a fuel-indexed family of mutually recursive
  functions; fuel is spent one unit per nested evaluation step so that the
  recursion is structural, and a run that exhausts its fuel ends in the
  distinguished `Err.fatal` outcome, which also models Rust aborts
  (failed unwrap, index out of bounds, the unimplemented macro).

The value/table/closure module (value.rs, function.rs) and the driver
(main.rs) are not part of the sources; where the evaluator depends on them
they are modelled from the specification and marked as such.
-/

namespace Purua

/-! ## AST (parser.rs, enum Rule / StatKind) -/

/-- Statement kinds, from parser.rs `enum StatKind`. -/
inductive StatKind where
  | Sep
  | VarAssign
  | FunctionCall
  | Label
  | Break
  | GoTo
  | Do
  | While
  | Repeat
  | IfThen
  | For
  | ForIn
  | DeclareFunction
  | LocalFunction
  | LocalVar
deriving DecidableEq

/-- AST nodes, from parser.rs `enum Rule`.  `Box` indirections are dropped;
`Vec<Box<Rule>>` becomes `List Rule` and `Option<Box<Rule>>` becomes
`Option Rule`. -/
inductive Rule where
  | Nil
  | Reserved (s : String)
  | Bool (b : Bool)
  | Numeral (n : Int)
  | LiteralString (s : String)
  | Symbol (s : String)
  | SymbolList (syms : List Rule)
  | Chunk (stats : List Rule) (laststat : Option Rule)
  | Block (chunk : Rule)
  | Stat (kind : StatKind) (a b c d e : Option Rule)
  | LastStat (e : Rule)
  | IfStat (exps : List Rule) (blocks : List Rule)
  | FuncName (name : Rule)
  | Var (sym : Rule)
  | Exp (e : Rule)
  | Prefixexp (e : Rule)
  | FunctionCall (name : Rule) (args : Rule)
  | Args (e : Rule)
  | FuncBody (params : Option Rule) (block : Rule)
  | ParList1 (sym : Rule)
  | TableConst (fields : Rule)
  | FieldList (fields : List Rule)
  | Field (key : Rule) (value : Rule)
  | BinOp (op : Char) (lhs : Rule) (rhs : Rule)
  | UnOp (op : Char) (e : Rule)
  | Nop

/-! ## Parser combinator semantics (the combine library)

A parser consumes a `List Char` and either succeeds with a value, the
remaining input and a consumed-input flag, or fails with a consumed-input
flag, or aborts (`panicked`, modelling a Rust abort inside a parser, and
also the cutoff of the recursion fuel).  combine's `or`/`choice` only try
the next alternative when the previous one failed *without* consuming
input; `attempt` converts any failure into a non-consuming one. -/

inductive PRes (α : Type) where
  | ok (a : α) (rest : List Char) (consumed : Bool)
  | err (consumed : Bool)
  | panicked

/-- The type of parsers over characters. -/
def P (α : Type) : Type := List Char → PRes α

/-- Map over a parser result (combine `map`). -/
def pMap {α β : Type} (f : α → β) (p : P α) : P β := fun input =>
  match p input with
  | .ok a rest c => .ok (f a) rest c
  | .err c => .err c
  | .panicked => .panicked

/-- A parser that succeeds with a value, consuming nothing (combine `value`). -/
def pPure {α : Type} (a : α) : P α := fun input => .ok a input false

/-- Sequencing; consumed flags accumulate (combine tuple/`then` sequencing). -/
def pBind {α β : Type} (p : P α) (q : α → P β) : P β := fun input =>
  match p input with
  | .ok a rest c1 =>
    match q a rest with
    | .ok b rest2 c2 => .ok b rest2 (c1 || c2)
    | .err c2 => .err (c1 || c2)
    | .panicked => .panicked
  | .err c => .err c
  | .panicked => .panicked

/-- Run `p` then `q`, keeping `p`'s result (combine `skip`). -/
def pSkip {α β : Type} (p : P α) (q : P β) : P α :=
  pBind p fun a => pMap (fun _ => a) q

/-- Ordered choice: try `q` only when `p` failed without consuming input
(combine `or`). -/
def pOr {α : Type} (p q : P α) : P α := fun input =>
  match p input with
  | .ok a rest c => .ok a rest c
  | .err true => .err true
  | .err false => q input
  | .panicked => .panicked

/-- Turn any failure into a non-consuming failure (combine `attempt`). -/
def pAttempt {α : Type} (p : P α) : P α := fun input =>
  match p input with
  | .ok a rest c => .ok a rest c
  | .err _ => .err false
  | .panicked => .panicked

/-- A parser that always fails without consuming. -/
def pFail {α : Type} : P α := fun _ => .err false

/-- Ordered choice over a list of alternatives (combine `choice`). -/
def pChoice {α : Type} (ps : List (P α)) : P α := ps.foldr pOr pFail

/-- Single-character parser (combine `satisfy`); fails without consuming. -/
def pSatisfy (f : Char → Bool) : P Char := fun input =>
  match input with
  | [] => .err false
  | c :: rest => if f c then .ok c rest true else .err false

/-- Exact-character parser (combine `token` / `char`). -/
def pToken (c : Char) : P Char := pSatisfy (fun x => x = c)

def pStringGo (w : List Char) (input : List Char) (c : Bool) : PRes Unit :=
  match w with
  | [] => .ok () input c
  | wc :: ws =>
    match input with
    | [] => .err c
    | x :: xs => if x = wc then pStringGo ws xs true else .err c

/-- Exact-word parser (combine `string`): a mismatch after a partial match
is a consuming failure, which is why the Rust source wraps keyword uses in
`attempt`. -/
def pString (w : String) : P Unit := fun input => pStringGo w.toList input false

def skipSpacesGo : List Char → List Char × Bool
  | [] => ([], false)
  | c :: rest =>
    if c.isWhitespace then ((skipSpacesGo rest).1, true) else (c :: rest, false)

/-- Whitespace skipping (combine `spaces`); always succeeds. -/
def pSpaces : P Unit := fun input =>
  match skipSpacesGo input with
  | (rest, c) => .ok () rest c

def pManyGo {α : Type} (p : P α) : Nat → List α → Bool → P (List α)
  | 0, _, _ => fun _ => .panicked
  | fu + 1, acc, c => fun input =>
    match p input with
    | .ok a rest true => pManyGo p fu (acc ++ [a]) true rest
    | .ok _ _ false => .panicked
    | .err false => .ok acc input c
    | .err true => .err true
    | .panicked => .panicked

/-- Repetition (combine `many`): stops at the first non-consuming failure,
propagates consuming failures.  A parser that succeeds without consuming
would loop forever in combine; that is modelled as `panicked`.  The
internal counter is bounded by the input length, which every consuming
iteration decreases. -/
def pMany {α : Type} (p : P α) : P (List α) := fun input =>
  pManyGo p (input.length + 1) [] false input

/-- One-or-more repetition (combine `many1`). -/
def pMany1 {α : Type} (p : P α) : P (List α) :=
  pBind p fun a => pMap (fun as => a :: as) (pMany p)

/-- One-or-more repetition with separators (combine `sep_by1`). -/
def pSepBy1 {α β : Type} (p : P α) (sep : P β) : P (List α) :=
  pBind p fun a => pMap (fun as => a :: as) (pMany (pBind sep fun _ => p))

def pChainGo {α : Type} (p : P α) (op : P (α → α → α)) :
    Nat → α → Bool → P α
  | 0, _, _ => fun _ => .panicked
  | fu + 1, acc, c => fun input =>
    match op input with
    | .err false => .ok acc input c
    | .err true => .err true
    | .panicked => .panicked
    | .ok f rest c1 =>
      match p rest with
      | .ok b rest2 c2 =>
        if c1 || c2 then pChainGo p op fu (f acc b) (c || c1 || c2) rest2
        else .panicked
      | .err c2 => if c1 || c2 then .err true else .ok acc input c
      | .panicked => .panicked

/-- Left-associative operator chain (combine `chainl1`): parse one term,
then repeatedly parse `(op, term)` pairs, folding the results to the
left. -/
def chainl1 {α : Type} (p : P α) (op : P (α → α → α)) : P α := fun input =>
  match p input with
  | .ok a rest c => pChainGo p op (rest.length + 1) a c rest
  | .err c => .err c
  | .panicked => .panicked

/-- Bracketed parser (combine `between`). -/
def pBetween {α β γ : Type} (opn : P β) (cls : P γ) (p : P α) : P α :=
  pBind opn fun _ => pSkip p cls

/-! ## Leaf parsers (parser.rs) -/

/-- parser.rs `nop`. -/
def nop : Rule := Rule.Nop

/-- parser.rs `reserved`: a keyword followed by whitespace skipping. -/
def reserved (word : String) : P Rule :=
  pMap (fun _ => Rule.Reserved word) (pSkip (pString word) pSpaces)

/-- parser.rs `nil`. -/
def nil : P Rule := pMap (fun _ => Rule.Nil) (reserved "nil")

/-- parser.rs `boolean`. -/
def boolean : P Rule :=
  pOr (pMap (fun _ => Rule.Bool true) (reserved "true"))
      (pMap (fun _ => Rule.Bool false) (reserved "false"))

def digitsToNat (ds : List Char) : Nat :=
  ds.foldl (fun acc c => acc * 10 + (c.toNat - 48)) 0

/-- parser.rs `numeral`: one or more digits, then whitespace skipping; the
digit string goes through Rust `str::parse::<i32>().unwrap()`, so a literal
whose value exceeds i32::MAX makes the unwrap abort — modelled as
`panicked`. -/
def numeral : P Rule := fun input =>
  match pSkip (pMany1 (pSatisfy Char.isDigit)) pSpaces input with
  | .ok ds rest c =>
    if digitsToNat ds ≤ 2147483647 then
      .ok (Rule.Numeral (Int.ofNat (digitsToNat ds))) rest c
    else .panicked
  | .err c => .err c
  | .panicked => .panicked

def replaceEscapes : List Char → List Char
  | '\\' :: 'n' :: rest => '\n' :: replaceEscapes rest
  | c :: rest => c :: replaceEscapes rest
  | [] => []

/-- parser.rs `literal_string`: a double-quoted run of non-quote characters
with the single escape sequence backslash-n normalised to a newline. -/
def literal_string : P Rule :=
  pMap (fun cs => Rule.LiteralString (String.mk (replaceEscapes cs)))
    (pSkip (pBetween (pToken '"') (pToken '"')
      (pMany (pSatisfy (fun c => c ≠ '"')))) pSpaces)

/-- parser.rs `symbol`: a letter followed by alphanumerics, then whitespace
skipping. -/
def symbol : P Rule :=
  pSkip
    (pBind (pSatisfy Char.isAlpha) fun c =>
      pMap (fun v => Rule.Symbol (String.mk (c :: v)))
        (pMany (pSatisfy Char.isAlphanum)))
    pSpaces

/-- parser.rs `symbollist`: comma-separated symbols. -/
def symbollist : P Rule :=
  pSkip (pMap Rule.SymbolList (pSepBy1 symbol (pSkip (pToken ',') pSpaces)))
    pSpaces

/-- parser.rs `var`: currently just a symbol. -/
def var : P Rule := pMap Rule.Var symbol

/-- parser.rs `fieldsep`. -/
def fieldsep : P Unit :=
  pMap (fun _ => ()) (pSkip (pOr (pToken ',') (pToken ';')) pSpaces)

/-! ## Expression grammar (parser.rs), mutually recursive on a fuel bound -/

mutual

/-- parser.rs `exp_`: the primary-expression alternatives, each wrapped in
`Rule::Exp`. -/
def exp_ : Nat → P Rule
  | 0 => fun _ => .panicked
  | fu + 1 =>
    pMap Rule.Exp (pChoice
      [pAttempt nil,
       pAttempt boolean,
       numeral,
       literal_string,
       unop fu,
       prefixexp fu,
       tableconstructor fu])

/-- parser.rs `exp`: the full expression grammar entry point. -/
def exp : Nat → P Rule
  | 0 => fun _ => .panicked
  | fu + 1 => binop1 fu

/-- parser.rs `binop1`: logical and/or level, tags '&' and '|'. -/
def binop1 : Nat → P Rule
  | 0 => fun _ => .panicked
  | fu + 1 =>
    chainl1 (binop2 fu)
      (pMap (fun tok d1 d2 => Rule.Exp (Rule.BinOp tok d1 d2))
        (pSkip (pChoice
          [pAttempt (pMap (fun _ => '&') (pString "and")),
           pAttempt (pMap (fun _ => '|') (pString "or"))]) pSpaces))

/-- parser.rs `binop2`: relational level; note the tag choices, with the
source token "<=" mapped to tag 'g' and ">=" mapped to tag 'l'. -/
def binop2 : Nat → P Rule
  | 0 => fun _ => .panicked
  | fu + 1 =>
    chainl1 (binop3 fu)
      (pMap (fun tok d1 d2 => Rule.Exp (Rule.BinOp tok d1 d2))
        (pSkip (pChoice
          [pAttempt (pMap (fun _ => 'g') (pString "<=")),
           pAttempt (pMap (fun _ => 'l') (pString ">=")),
           pToken '<',
           pToken '>',
           pToken '-',
           pAttempt (pMap (fun _ => 'e') (pString "==")),
           pAttempt (pMap (fun _ => 'n') (pString "~="))]) pSpaces))

/-- parser.rs `binop3`: additive level. -/
def binop3 : Nat → P Rule
  | 0 => fun _ => .panicked
  | fu + 1 =>
    chainl1 (binop4 fu)
      (pMap (fun tok d1 d2 => Rule.Exp (Rule.BinOp tok d1 d2))
        (pSkip (pOr (pToken '+') (pToken '-')) pSpaces))

/-- parser.rs `binop4`: multiplicative level. -/
def binop4 : Nat → P Rule
  | 0 => fun _ => .panicked
  | fu + 1 =>
    chainl1 (exp_ fu)
      (pMap (fun tok d1 d2 => Rule.Exp (Rule.BinOp tok d1 d2))
        (pSkip (pOr (pToken '*') (pToken '/')) pSpaces))

/-- parser.rs `unop`: a unary operator (the keyword not, '-', '#', '~')
followed by a primary expression. -/
def unop : Nat → P Rule
  | 0 => fun _ => .panicked
  | fu + 1 =>
    pBind (pChoice
        [pSkip (pAttempt (pMap (fun _ => '!') (pString "not"))) pSpaces,
         pToken '-',
         pToken '#',
         pToken '~'])
      (fun op => pMap (fun e => Rule.UnOp op e) (exp_ fu))

/-- parser.rs `prefixexp`: ordered backtracking choice between a function
call, a bare variable, and a parenthesized expression. -/
def prefixexp : Nat → P Rule
  | 0 => fun _ => .panicked
  | fu + 1 =>
    pMap Rule.Prefixexp
      (pSkip (pChoice
        [pAttempt (functioncall fu),
         pAttempt var,
         pBetween (pToken '(') (pToken ')') (exp fu)]) pSpaces)

/-- parser.rs `functioncall`: a symbol followed by an argument list. -/
def functioncall : Nat → P Rule
  | 0 => fun _ => .panicked
  | fu + 1 =>
    pBind symbol fun name =>
      pMap (fun a => Rule.FunctionCall name a) (args fu)

/-- parser.rs `args`: a parenthesized, possibly empty (then `Rule::Nop`)
argument expression. -/
def args : Nat → P Rule
  | 0 => fun _ => .panicked
  | fu + 1 =>
    pMap Rule.Args
      (pBetween (pToken '(') (pToken ')') (pOr (exp fu) (pPure nop)))

/-- parser.rs `tableconstructor`. -/
def tableconstructor : Nat → P Rule
  | 0 => fun _ => .panicked
  | fu + 1 =>
    pMap Rule.TableConst
      (pSkip (pBetween (pSkip (pToken '{') pSpaces) (pToken '}')
        (pSkip (fieldlist fu) pSpaces)) pSpaces)

/-- parser.rs `fieldlist`: a field, then (separator, field) pairs, then an
optional trailing separator. -/
def fieldlist : Nat → P Rule
  | 0 => fun _ => .panicked
  | fu + 1 =>
    pBind (field fu) fun head =>
      pBind (pMany (pBind fieldsep fun _ => field fu)) fun tail =>
        pMap (fun _ => Rule.FieldList (head :: tail))
          (pOr fieldsep (pPure ()))

/-- parser.rs `field`: a bracket-keyed field, a symbol-keyed field, or an
un-keyed value (key slot `Rule::Nop`). -/
def field : Nat → P Rule
  | 0 => fun _ => .panicked
  | fu + 1 =>
    pChoice
      [pBind (pBetween (pToken '[') (pToken ']') (exp fu)) fun e1 =>
         pBind (pSkip (pToken '=') pSpaces) fun _ =>
           pMap (fun e2 => Rule.Field e1 e2) (exp fu),
       pBind symbol fun e1 =>
         pBind (pSkip (pToken '=') pSpaces) fun _ =>
           pMap (fun e2 => Rule.Field e1 e2) (exp fu),
       pMap (fun e1 => Rule.Field Rule.Nop e1) (exp fu)]

end

/-! ## Errors (state.rs, struct LuaError)

`Err.lua` is a returned `LuaError`; `Err.fatal` models a Rust abort
(failed unwrap, out-of-bounds index, the unimplemented macro) and the
fuel cutoff of the embedding. -/

inductive Err where
  | lua (message : String)
  | fatal (message : String)

/-- Modelled from the spec: the `LuaFunction` type of the missing
function.rs.  Per §3 of the spec a Function value is "either a native
binding or an interpreted closure (ordered parameter names + a
borrowed/shared AST block)"; a native binding is identified here by an
opaque tag, and its behavior is supplied through `Host.do_call`. -/
inductive LuaFunction where
  | native (id : Nat)
  | code (params : List String) (block : Rule)

/-- Modelled from the spec: the `Value` type of the missing value.rs.
Per §3: tagged union of Nil, Bool, Integer(64-bit), String, Function,
Table.  The variant names Nil/Bool/Number/LuaString/Function follow the
match arms visible in state.rs; the table carries its array part (the
key/value part is unexercised by the core per §4.2/§6). -/
inductive Value where
  | nil
  | bool (b : Bool)
  | number (n : Int)
  | luaString (s : String)
  | function (f : LuaFunction)
  | table (arr : List Value)

/-- Truthiness as dispatched inline by eval.rs `eval_ifthen`: everything
except Nil and boolean false is truthy. -/
def truthy : Value → Bool
  | .nil => false
  | .bool b => b
  | _ => true

/-- i64 two's-complement wrapping (Rust release-mode arithmetic). -/
def wrap64 (n : Int) : Int :=
  (n + 9223372036854775808) % 18446744073709551616 - 9223372036854775808

/-! ## Execution state (state.rs) -/

/-- state.rs `struct Global`; the HashMap is modelled as an association
list looked up by first match. -/
structure Global where
  global : List (String × Value)

/-- state.rs `struct Registry`. -/
structure Registry where
  array : List Value
  top : Nat
  max_size : Nat

/-- state.rs `struct CallFrame` (declared in a missing module but its
fields `env : name → registry index` and `to_return` are pinned down by
their uses in state.rs). -/
structure CallFrame where
  env : List (String × Nat)
  to_return : Bool

/-- state.rs `Registry::push`: appends unconditionally and returns the new
top; `max_size` is not consulted. -/
def Registry.push (r : Registry) (value : Value) : Nat × Registry :=
  (r.top + 1, { array := r.array ++ [value], top := r.top + 1, max_size := r.max_size })

/-- state.rs `Registry::pop`: `self.top -= 1; self.array.pop()`.  When
`top` is 0 the usize subtraction aborts (debug build), modelled as
`Err.fatal`; otherwise the last element (if any) is removed. -/
def Registry.pop (r : Registry) : (Except Err (Option Value)) × Registry :=
  if r.top = 0 then (.error (.fatal "usize underflow in Registry::pop"), r)
  else (.ok r.array.getLast?,
        { array := r.array.dropLast, top := r.top - 1, max_size := r.max_size })

/-- state.rs `Registry::ensure_pop`. -/
def Registry.ensure_pop (r : Registry) : (Except Err Value) × Registry :=
  match r.pop with
  | (.ok (some v), r2) => (.ok v, r2)
  | (.ok none, r2) =>
    (.error (.lua "Cannot find value from regisrty, maybe empty"), r2)
  | (.error e, r2) => (.error e, r2)

/-- state.rs `struct LuaState`.  The innermost call frame is the last
element of `frame_stack`, as with the Rust `Vec`. -/
structure LuaState where
  g : Global
  reg : Registry
  frame_stack : List CallFrame

/-- state.rs `LuaState::new`. -/
def LuaState.new (reg_size : Nat) : LuaState :=
  { g := { global := [] },
    reg := { array := [], top := 0, max_size := reg_size },
    frame_stack := [] }

/-- HashMap insert (overwrite semantics), used by the global table. -/
def hmInsert (m : List (String × Value)) (name : String) (value : Value) :
    List (String × Value) :=
  (name, value) :: m.filter (fun p => !(p.1 == name))

/-- state.rs `LuaState::assign_global`: remove any old binding, insert the
new one. -/
def LuaState.assign_global (l : LuaState) (name : String) (value : Value) :
    LuaState :=
  { l with g := { global := hmInsert l.g.global name value } }

/-- The per-variant duplication in state.rs `get_global`/`get_local`
(scalars copy, functions/tables keep their shared identity; the table arm
follows the §6 duplication contract since value.rs is missing). -/
def Value.clone : Value → Value
  | .nil => .nil
  | .bool b => .bool b
  | .number n => .number n
  | .luaString s => .luaString s
  | .function f => .function f
  | .table a => .table a

/-- state.rs `LuaState::get_global`. -/
def LuaState.get_global (l : LuaState) (name : String) : Option Value :=
  (List.lookup name l.g.global).map Value.clone

/-- state.rs `LuaState::register_global_code`. -/
def LuaState.register_global_code (l : LuaState) (name : String)
    (params : List String) (block : Rule) : LuaState :=
  { l with g := { global := hmInsert l.g.global name
                    (Value.function (.code params block)) } }

/-- state.rs `LuaState::current_frame`. -/
def LuaState.current_frame (l : LuaState) : Option CallFrame :=
  l.frame_stack.getLast?

/-- state.rs `LuaState::get_local`: resolve the name in the innermost
frame's map and read the registry slot.  (An out-of-range slot would abort
in Rust; it is unreachable for states built by the operations here.) -/
def LuaState.get_local (l : LuaState) (name : String) : Option Value :=
  match l.current_frame with
  | none => none
  | some f =>
    match List.lookup name f.env with
    | none => none
    | some idx => (l.reg.array.get? idx).map Value.clone

/-- state.rs `LuaState::set_to_return` (unwraps the innermost frame; no
frame is a Rust abort, but every caller guards on `current_frame`). -/
def LuaState.set_to_return (l : LuaState) (b : Bool) :
    (Except Err Unit) × LuaState :=
  match l.frame_stack.getLast? with
  | none => (.error (.fatal "set_to_return with no frame"), l)
  | some f =>
    (.ok (), { l with frame_stack := l.frame_stack.dropLast ++ [{ f with to_return := b }] })

/-- state.rs `LuaState::to_return`. -/
def LuaState.to_return (l : LuaState) : Bool :=
  match l.current_frame with
  | some f => f.to_return
  | none => false

/-- Modelled from the spec: `has_local_name`, used by eval.rs assignment
but absent from state.rs.  §4.2: "if the name exists as a local in the
current frame". -/
def LuaState.has_local_name (l : LuaState) (name : String) : Bool :=
  match l.current_frame with
  | none => false
  | some f => (List.lookup name f.env).isSome

/-- Modelled from the spec: `assign_local`, used by eval.rs but absent
from state.rs.  §4.2/§4.3: if the name is already a local of the current
frame, mutate its registry slot; otherwise push the value and record
name → index in the active frame (locals are registry slots).  With no
active frame the Rust code would abort. -/
def LuaState.assign_local (l : LuaState) (name : String) (value : Value) :
    (Except Err Unit) × LuaState :=
  match l.frame_stack.getLast? with
  | none => (.error (.fatal "assign_local with no frame"), l)
  | some f =>
    match List.lookup name f.env with
    | some idx =>
      (.ok (), { l with reg := { l.reg with array := l.reg.array.set idx value } })
    | none =>
      let idx := l.reg.top
      let reg2 := (l.reg.push value).2
      (.ok (),
        { l with
            reg := reg2
            frame_stack := l.frame_stack.dropLast ++
              [{ f with env := (name, idx) :: f.env }] })

/-- Modelled from the spec: `start_block_raw`, used by eval.rs but absent
from state.rs.  §4.3: "entering a block records the current `top` as a
checkpoint". -/
def LuaState.start_block_raw (l : LuaState) : Nat := l.reg.top

/-- Modelled from the spec: `end_block_raw`, used by eval.rs but absent
from state.rs.  §4.3: "leaving the block truncates the stack back to the
checkpoint, invalidating those name bindings". -/
def LuaState.end_block_raw (l : LuaState) (oldtop : Nat) :
    (Except Err Unit) × LuaState :=
  if l.reg.top < oldtop then
    (.error (.lua "block checkpoint above current top"), l)
  else
    let reg2 : Registry :=
      { array := l.reg.array.take oldtop, top := oldtop, max_size := l.reg.max_size }
    let fs2 :=
      match l.frame_stack.getLast? with
      | none => l.frame_stack
      | some f => l.frame_stack.dropLast ++
          [{ f with env := f.env.filter (fun p => decide (p.2 < oldtop)) }]
    (.ok (), { l with reg := reg2, frame_stack := fs2 })

/-! ## Operator tables (state.rs) -/

/-- state.rs `process_op_number`: the numeric operator table.  Note how the
tags 'l' and 'g' are interpreted.  Division by zero aborts in Rust
(`Err.fatal`); `Int.tdiv` matches Rust's truncating i64 division. -/
def process_op_number (op : Char) (l r : Int) : Except Err Value :=
  match op with
  | '+' => .ok (.number (wrap64 (l + r)))
  | '-' => .ok (.number (wrap64 (l - r)))
  | '*' => .ok (.number (wrap64 (l * r)))
  | '/' => if r = 0 then .error (.fatal "divide by zero")
           else .ok (.number (wrap64 (Int.tdiv l r)))
  | 'l' => .ok (.bool (decide (l ≤ r)))
  | '<' => .ok (.bool (decide (l < r)))
  | 'g' => .ok (.bool (decide (l ≥ r)))
  | '>' => .ok (.bool (decide (l > r)))
  | 'e' => .ok (.bool (decide (l = r)))
  | 'n' => .ok (.bool (decide (l ≠ r)))
  | _ => .error (.lua "unsupported op")

/-- state.rs `process_op_bool`. -/
def process_op_bool (op : Char) (l r : Bool) : Except Err Value :=
  match op with
  | '&' => .ok (.bool (l && r))
  | '|' => .ok (.bool (l || r))
  | _ => .error (.lua "unsupported op")

/-- state.rs `process_op_str`. -/
def process_op_str (op : Char) (l r : String) : Except Err Value :=
  match op with
  | 'e' => .ok (.bool (l == r))
  | 'n' => .ok (.bool (!(l == r)))
  | _ => .error (.lua "unsupported op")

/-- state.rs `process_op`: same-type dispatch; mixed or other kinds are a
type error. -/
def process_op (op : Char) (lvalue rvalue : Value) : Except Err Value :=
  match lvalue, rvalue with
  | .number n, .number m => process_op_number op n m
  | .bool n, .bool m => process_op_bool op n m
  | .luaString n, .luaString m => process_op_str op n m
  | _, _ => .error (.lua "type error")

/-- Modelled from the spec: `process_unop`, called by eval.rs `eval_unop`
but absent from state.rs.  §4.2 lists the unary operators (not, minus,
length, bitwise-not) with the parser tags given in `unop`. -/
def process_unop (op : Char) (value : Value) : Except Err Value :=
  match op, value with
  | '!', v => .ok (.bool (!truthy v))
  | '-', .number n => .ok (.number (wrap64 (-n)))
  | '#', .luaString s => .ok (.number (Int.ofNat s.length))
  | '#', .table a => .ok (.number (Int.ofNat a.length))
  | '~', .number n => .ok (.number (wrap64 (-n - 1)))
  | _, _ => .error (.lua "unsupported op")

/-! ## Calling convention (state.rs `global_funcall1`) -/

/-- Modelled from the spec: the dispatch interface of the missing
function.rs.  §6: a Function exposes "an invocation entry point taking the
execution state and returning the number of values pushed, or an error"
(`do_call`), and the evaluator's generic-for protocol uses a
multiple-return invocation (`funcall`) returning the produced values. -/
structure Host where
  do_call : LuaFunction → LuaState → (Except Err Nat) × LuaState
  funcall : Value → List Value → LuaState → (Except Err (List Value)) × LuaState

def popWhileGo (oldtop : Nat) : Nat → Registry → (Except Err Unit) × Registry
  | 0, r => (.error (.fatal "out of fuel"), r)
  | fu + 1, r =>
    if oldtop < r.top then
      match r.ensure_pop with
      | (.ok _, r2) => popWhileGo oldtop fu r2
      | (.error e, r2) => (.error e, r2)
    else (.ok (), r)

/-- The `while oldtop < self.reg.top` pop loop at the end of
state.rs `global_funcall1`.  Each successful pop decreases `top` by one,
so `r.top + 1` rounds of fuel always suffice. -/
def popWhile (oldtop : Nat) (r : Registry) : (Except Err Unit) × Registry :=
  popWhileGo oldtop (r.top + 1) r

/-- state.rs `global_funcall1`: record `oldtop`, push the single argument,
resolve the callee among the globals, invoke it through `do_call`, check
the net stack effect `oldtop + 1 + retnr = top` exactly, pop the declared
return value (when `retnr = 1`), then pop back down to `oldtop`. -/
def global_funcall1 (host : Host) (name : String) (arg1 : Value)
    (l : LuaState) : (Except Err Value) × LuaState :=
  let oldtop := l.reg.top
  let params_n := 1
  let l1 : LuaState := { l with reg := (l.reg.push arg1).2 }
  match List.lookup name l1.g.global with
  | none => (.error (.lua ("Specified func " ++ name ++ " not found")), l1)
  | some v =>
    match v with
    | .function func =>
      (match host.do_call func l1 with
       | (.error e, l2) => (.error e, l2)
       | (.ok retnr, l2) =>
         if oldtop + params_n + retnr ≠ l2.reg.top then
           (.error (.lua ("func " ++ name ++ " should be return " ++
             toString retnr ++ " values")), l2)
         else
           let step1 : (Except Err Value) × LuaState :=
             if retnr = 1 then
               match l2.reg.ensure_pop with
               | (.ok vret, r3) => (.ok vret, { l2 with reg := r3 })
               | (.error e, r3) => (.error e, { l2 with reg := r3 })
             else (.ok .nil, l2)
           match step1 with
           | (.error e, l3) => (.error e, l3)
           | (.ok vret, l3) =>
             match popWhile oldtop l3.reg with
             | (.ok _, r4) => (.ok vret, { l3 with reg := r4 })
             | (.error e, r4) => (.error e, { l3 with reg := r4 }))
    | _ => (.error (.lua ("Specified name " ++ name ++ " is not func")), l1)

/-! ## Evaluator (eval.rs)

Each function takes the `Host` dispatch record and a fuel bound; fuel is
spent one unit per nested evaluation step, and exhausting it yields the
`Err.fatal` out-of-fuel outcome (the Rust evaluator instead recurses on
the host stack without bound). -/

/-- The result of evaluating a node: a value or an error, plus the state
as left behind (Rust mutates the state in place, so it survives an
error). -/
abbrev R : Type := (Except Err Value) × LuaState

def fatalFuel (l : LuaState) : R := (.error (.fatal "out of fuel"), l)

/-- eval.rs `eval_get_var`: local-then-global resolution. -/
def eval_get_var (l : LuaState) (e : Rule) : R :=
  match e with
  | .Var v =>
    match v with
    | .Symbol name =>
      match (l.get_local name).or (l.get_global name) with
      | some value => (.ok value, l)
      | none => (.error (.lua "Variable not found"), l)
    | _ => (.error (.lua "Invalid rule passed"), l)
  | _ => (.error (.lua "Invalid rule passed"), l)

/-- eval.rs `process_funcname`. -/
def process_funcname (fname : Rule) : Except Err String :=
  match fname with
  | .FuncName inner =>
    match inner with
    | .Symbol s => .ok s
    | _ => .error (.lua "Invalid rule passed")
  | _ => .error (.lua "Invalid rule passed")

/-- eval.rs `process_params` (single-parameter lists only). -/
def process_params (params : Rule) : Except Err (List String) :=
  match params with
  | .ParList1 inner =>
    match inner with
    | .Symbol s => .ok [s]
    | _ => .error (.lua "Invalid rule passed")
  | _ => .error (.lua "Invalid rule passed")

/-- eval.rs `eval_funcbody`: a function body must be a parameter list
(optional) plus a block. -/
def eval_funcbody (fb : Rule) : Except Err (List String × Rule) :=
  match fb with
  | .FuncBody params body =>
    match body with
    | .Block _ =>
      (match params with
       | some p =>
         match process_params p with
         | .ok ps => .ok (ps, body)
         | .error e => .error e
       | none => .ok ([], body))
    | _ => .error (.lua "Invalid composite of funcbody")
  | _ => .error (.lua "Invalid composite of funcbody")

/-- The variable-binding loop of the generic-for in eval.rs `eval_stat`:
iterate the loop-variable list in reverse, popping one value off the end
of the returned values for each (`values.pop().unwrap()`); running out of
values is a Rust abort. -/
def forin_assign (l : LuaState) (names : List Rule) (vals : List Value) :
    (Except Err Unit) × LuaState :=
  match names with
  | [] => (.ok (), l)
  | nm :: rest =>
    match nm with
    | .Symbol s =>
      match vals.getLast? with
      | none => (.error (.fatal "unwrap of empty values"), l)
      | some v =>
        match l.assign_local s v with
        | (.ok _, l2) => forin_assign l2 rest vals.dropLast
        | (.error e, l2) => (.error e, l2)
    | _ => (.error (.lua "Invalid rule passed"), l)

mutual

/-- eval.rs `eval_exp`: literals evaluate directly; composite expressions
dispatch to the per-kind functions. -/
def eval_exp (host : Host) : Nat → LuaState → Rule → R
  | 0, l, _ => fatalFuel l
  | fu + 1, l, e =>
    match e with
    | .Exp inner =>
      match inner with
      | .Nil => (.ok .nil, l)
      | .Bool b => (.ok (.bool b), l)
      | .Numeral n => (.ok (.number n), l)
      | .LiteralString s => (.ok (.luaString s), l)
      | .Prefixexp _ => eval_prefixexp host fu l inner
      | .TableConst _ => eval_tableconst host fu l inner
      | .BinOp _ _ _ => eval_binop host fu l inner
      | .UnOp _ _ => eval_unop host fu l inner
      | _ => (.error (.lua "Unsupported exp rule"), l)
    | _ => (.error (.lua "Invalid rule passed"), l)

/-- eval.rs `eval_binop`: evaluate both operands fully, then dispatch to
the same-type operator table. -/
def eval_binop (host : Host) : Nat → LuaState → Rule → R
  | 0, l, _ => fatalFuel l
  | fu + 1, l, r =>
    match r with
    | .BinOp cop lhs rhs =>
      match (match lhs with
             | .Exp _ => eval_exp host fu l lhs
             | .BinOp _ _ _ => eval_binop host fu l lhs
             | .UnOp _ _ => eval_unop host fu l lhs
             | _ => (.error (.lua "lhs invalid"), l)) with
      | (.error e, l1) => (.error e, l1)
      | (.ok lvalue, l1) =>
        match (match rhs with
               | .Exp _ => eval_exp host fu l1 rhs
               | .BinOp _ _ _ => eval_binop host fu l1 rhs
               | .UnOp _ _ => eval_unop host fu l1 rhs
               | _ => (.error (.lua "rhs invalid"), l1)) with
        | (.error e, l2) => (.error e, l2)
        | (.ok rvalue, l2) => (process_op cop lvalue rvalue, l2)
    | _ => (.error (.lua "binop invalid"), l)

/-- eval.rs `eval_unop`. -/
def eval_unop (host : Host) : Nat → LuaState → Rule → R
  | 0, l, _ => fatalFuel l
  | fu + 1, l, r =>
    match r with
    | .UnOp cop e =>
      match (match e with
             | .Exp _ => eval_exp host fu l e
             | .BinOp _ _ _ => eval_binop host fu l e
             | .UnOp _ _ => eval_unop host fu l e
             | _ => (.error (.lua "unop exp invalid"), l)) with
      | (.error er, l1) => (.error er, l1)
      | (.ok v, l1) => (process_unop cop v, l1)
    | _ => (.error (.lua "unop invalid"), l)

/-- eval.rs `eval_prefixexp`. -/
def eval_prefixexp (host : Host) : Nat → LuaState → Rule → R
  | 0, l, _ => fatalFuel l
  | fu + 1, l, pexp =>
    match pexp with
    | .Prefixexp inner =>
      match inner with
      | .FunctionCall _ _ => eval_funcall host fu l inner
      | .Var _ => eval_get_var l inner
      | .Exp _ => eval_exp host fu l inner
      | _ => (.error (.lua "Unsupported rule"), l)
    | _ => (.error (.lua "Invalid rule passed"), l)

/-- eval.rs `eval_tableconst`: build a fresh table from the field list. -/
def eval_tableconst (host : Host) : Nat → LuaState → Rule → R
  | 0, l, _ => fatalFuel l
  | fu + 1, l, r =>
    match r with
    | .TableConst listR =>
      match listR with
      | .FieldList fields => tc_fields host fu l fields []
      | _ => (.error (.lua "Invalid rule passed"), l)
    | _ => (.error (.lua "Invalid rule passed"), l)

/-- The field loop of eval.rs `eval_tableconst`: a symbol-keyed field hits
the unimplemented macro (a Rust abort), an un-keyed field appends its
evaluated value to the array part, and any other key shape is a reported
error. -/
def tc_fields (host : Host) : Nat → LuaState → List Rule → List Value → R
  | 0, l, _, _ => fatalFuel l
  | fu + 1, l, fields, acc =>
    match fields with
    | [] => (.ok (.table acc), l)
    | f :: rest =>
      match f with
      | .Field key value =>
        match key with
        | .Symbol _ => (.error (.fatal "not implemented: TODO: table"), l)
        | .Nop =>
          match eval_exp host fu l value with
          | (.error e, l1) => (.error e, l1)
          | (.ok v, l1) => tc_fields host fu l1 rest (acc ++ [v])
        | _ => (.error (.lua "Unsupported rule for field key"), l)
      | _ => (.error (.lua "Invalid rule passed"), l)

/-- eval.rs `eval_funcall`: resolve the callee name, evaluate the zero-or-
one argument (an absent argument list passes the single value Nil), and
call through `global_funcall1`. -/
def eval_funcall (host : Host) : Nat → LuaState → Rule → R
  | 0, l, _ => fatalFuel l
  | fu + 1, l, fc =>
    match fc with
    | .FunctionCall nameR argsR =>
      match nameR with
      | .Symbol name =>
        match argsR with
        | .Args inner =>
          match inner with
          | .Exp _ =>
            match eval_exp host fu l inner with
            | (.error e, l1) => (.error e, l1)
            | (.ok arg1v, l1) => global_funcall1 host name arg1v l1
          | .Nop => global_funcall1 host name .nil l
          | _ => (.error (.lua "Invalid rule"), l)
        | _ => (.error (.lua "Invalid rule passed"), l)
      | _ => (.error (.lua "Invalid rule passed"), l)
    | _ => (.error (.lua "Invalid rule passed"), l)

/-- eval.rs `eval_funcall_multi`: the multiple-return call path used by
the generic-for protocol; looks the callee up directly and invokes it
through the `funcall` entry point. -/
def eval_funcall_multi (host : Host) :
    Nat → LuaState → Rule → (Except Err (List Value)) × LuaState
  | 0, l, _ => (.error (.fatal "out of fuel"), l)
  | fu + 1, l, fc =>
    match fc with
    | .FunctionCall nameR argsR =>
      match nameR with
      | .Symbol name =>
        match argsR with
        | .Args inner =>
          match l.get_global name with
          | none => (.error (.lua "Please specify func name"), l)
          | some func =>
            match inner with
            | .Exp _ =>
              match eval_exp host fu l inner with
              | (.error e, l1) => (.error e, l1)
              | (.ok arg1v, l1) => host.funcall func [arg1v] l1
            | .Nop => host.funcall func [] l
            | _ => (.error (.lua "Invalid rule"), l)
        | _ => (.error (.lua "Invalid rule passed"), l)
      | _ => (.error (.lua "Invalid rule passed"), l)
    | _ => (.error (.lua "Invalid rule passed"), l)

/-- eval.rs `eval_ifthen`: walk the condition list in order. -/
def eval_ifthen (host : Host) : Nat → LuaState → Rule → R
  | 0, l, _ => fatalFuel l
  | fu + 1, l, stat =>
    match stat with
    | .IfStat exps blocks => if_go host fu l exps blocks 0
    | _ => (.error (.lua "Invalid rule passed"), l)

/-- The condition loop of eval.rs `eval_ifthen`: a Nil or false condition
value moves on to the next condition, any other value selects the block
at the same index (an out-of-range block index is a Rust abort), a
`Rule::Nop` condition selects its block unconditionally, and running out
of conditions yields Nil. -/
def if_go (host : Host) : Nat → LuaState → List Rule → List Rule → Nat → R
  | 0, l, _, _, _ => fatalFuel l
  | fu + 1, l, exps, blocks, i =>
    match exps with
    | [] => (.ok .nil, l)
    | e :: rest =>
      match e with
      | .Exp _ =>
        match eval_exp host fu l e with
        | (.error er, l1) => (.error er, l1)
        | (.ok v, l1) =>
          match v with
          | .nil => if_go host fu l1 rest blocks (i + 1)
          | .bool bb =>
            if bb then
              match blocks.get? i with
              | some blk => eval_block host fu l1 blk
              | none => (.error (.fatal "index out of bounds"), l1)
            else if_go host fu l1 rest blocks (i + 1)
          | _ =>
            match blocks.get? i with
            | some blk => eval_block host fu l1 blk
            | none => (.error (.fatal "index out of bounds"), l1)
      | .Nop =>
        match blocks.get? i with
        | some blk => eval_block host fu l blk
        | none => (.error (.fatal "index out of bounds"), l)
      | _ => (.error (.lua "Invalid rule"), l)

/-- eval.rs `eval_chunk`: run the statements in order, stopping early when
the return flag is set; then evaluate the optional last statement, setting
the return flag when a frame is active. -/
def eval_chunk (host : Host) : Nat → LuaState → Rule → R
  | 0, l, _ => fatalFuel l
  | fu + 1, l, ch =>
    match ch with
    | .Chunk stats last =>
      match stats_go host fu l stats with
      | (.error e, l1) => (.error e, l1)
      | (.ok (some ret), l1) => (.ok ret, l1)
      | (.ok none, l1) =>
        match last with
        | some stat =>
          (match stat with
           | .LastStat expr =>
             match eval_exp host fu l1 expr with
             | (.error e, l2) => (.error e, l2)
             | (.ok ret, l2) =>
               match l2.current_frame with
               | some _ =>
                 (match l2.set_to_return true with
                  | (.ok _, l3) => (.ok ret, l3)
                  | (.error e, l3) => (.error e, l3))
               | none => (.ok ret, l2)
           | _ => (.error (.lua "Invalid rule passed"), l1))
        | none => (.ok .nil, l1)
    | _ => (.error (.lua "Not a chunk"), l)

/-- The statement loop of eval.rs `eval_chunk`: returns `some ret` when a
statement set the return flag. -/
def stats_go (host : Host) :
    Nat → LuaState → List Rule → (Except Err (Option Value)) × LuaState
  | 0, l, _ => (.error (.fatal "out of fuel"), l)
  | fu + 1, l, stats =>
    match stats with
    | [] => (.ok none, l)
    | st :: rest =>
      match eval_stat host fu l st with
      | (.error e, l1) => (.error e, l1)
      | (.ok ret, l1) =>
        if l1.to_return then (.ok (some ret), l1)
        else stats_go host fu l1 rest

/-- eval.rs `eval_stat`: dispatch over the statement kind; kinds not
listed hit the unimplemented macro (a Rust abort). -/
def eval_stat (host : Host) : Nat → LuaState → Rule → R
  | 0, l, _ => fatalFuel l
  | fu + 1, l, stat =>
    match stat with
    | .Stat kind a b c _d _e =>
      match kind with
      | .Sep => (.ok .nil, l)
      | .VarAssign =>
        (match a with
         | none => (.error (.fatal "unwrap of None"), l)
         | some av =>
           match av with
           | .Var inner =>
             match inner with
             | .Symbol name =>
               (match b with
                | none => (.error (.fatal "unwrap of None"), l)
                | some bv =>
                  match eval_exp host fu l bv with
                  | (.error e, l1) => (.error e, l1)
                  | (.ok value, l1) =>
                    if l1.has_local_name name then
                      match l1.assign_local name value with
                      | (.ok _, l2) => (.ok .nil, l2)
                      | (.error e, l2) => (.error e, l2)
                    else (.ok .nil, l1.assign_global name value))
             | _ => (.error (.lua "Invalid rule passed"), l)
           | _ => (.error (.lua "Invalid rule passed"), l))
      | .FunctionCall =>
        (match a with
         | none => (.error (.fatal "unwrap of None"), l)
         | some av => eval_funcall host fu l av)
      | .DeclareFunction =>
        (match a with
         | none => (.error (.fatal "unwrap of None"), l)
         | some av =>
           match process_funcname av with
           | .error e => (.error e, l)
           | .ok name =>
             match b with
             | none => (.error (.fatal "unwrap of None"), l)
             | some bv =>
               match eval_funcbody bv with
               | .error e => (.error e, l)
               | .ok (params, block) =>
                 (.ok .nil, l.register_global_code name params block))
      | .IfThen =>
        (match a with
         | none => (.error (.fatal "unwrap of None"), l)
         | some av => eval_ifthen host fu l av)
      | .LocalVar =>
        (match a with
         | none => (.error (.fatal "unwrap of None"), l)
         | some av =>
           match av with
           | .Symbol name =>
             (match b with
              | none => (.error (.fatal "unwrap of None"), l)
              | some bv =>
                match bv with
                | .Exp _ =>
                  (match eval_exp host fu l bv with
                   | (.error e, l1) => (.error e, l1)
                   | (.ok value, l1) =>
                     match l1.current_frame with
                     | some _ =>
                       (match l1.assign_local name value with
                        | (.ok _, l2) => (.ok .nil, l2)
                        | (.error e, l2) => (.error e, l2))
                     | none => (.error (.lua "Expected in function def"), l1))
                | _ => (.error (.lua "Expected exp"), l))
           | _ => (.error (.lua "Invalid rule passed"), l))
      | .ForIn =>
        (match a with
         | none => (.error (.fatal "unwrap of None"), l)
         | some av =>
           match av with
           | .SymbolList vars =>
             (match b with
              | none => (.error (.fatal "unwrap of None"), l)
              | some bv =>
                match bv with
                | .Exp funex =>
                  (match funex with
                   | .Prefixexp fc =>
                     (match eval_funcall_multi host fu l fc with
                      | (.error e, l1) => (.error e, l1)
                      | (.ok loopParams, l1) =>
                        match loopParams.reverse with
                        | key :: collction :: next :: _ =>
                          forin_loop host fu l1 next collction key vars c
                        | _ => (.error (.fatal "unwrap of None"), l1))
                   | _ => (.error (.lua "Invalid rule passed"), l))
                | _ => (.error (.lua "Invalid rule passed"), l))
           | _ => (.error (.lua "Invalid rule passed"), l))
      | _ => (.error (.fatal "unimplemented stat kind"), l)
    | _ => (.error (.lua "Not a stat"), l)

/-- The iteration loop of the generic-for in eval.rs `eval_stat`: call
`iterator(state, control)`; stop when the first returned value is Nil;
otherwise take it as the next control value, open a block scope, bind the
loop variables right-to-left, run the body, and close the scope back to
the checkpoint. -/
def forin_loop (host : Host) :
    Nat → LuaState → Value → Value → Value → List Rule → Option Rule → R
  | 0, l, _, _, _, _, _ => fatalFuel l
  | fu + 1, l, next, collction, key, vars, copt =>
    match host.funcall next [collction, key] l with
    | (.error e, l1) => (.error e, l1)
    | (.ok values, l1) =>
      match values.head? with
      | none => (.error (.fatal "index out of bounds"), l1)
      | some v0 =>
        match v0 with
        | .nil => (.ok .nil, l1)
        | _ =>
          let key2 := v0
          let oldtop := l1.start_block_raw
          match forin_assign l1 vars.reverse values with
          | (.error e, l2) => (.error e, l2)
          | (.ok _, l2) =>
            match copt with
            | none => (.error (.fatal "unwrap of None"), l2)
            | some body =>
              match eval_block host fu l2 body with
              | (.error e, l3) => (.error e, l3)
              | (.ok _, l3) =>
                match l3.end_block_raw oldtop with
                | (.error e, l4) => (.error e, l4)
                | (.ok _, l4) =>
                  forin_loop host fu l4 next collction key2 vars copt

/-- eval.rs `eval_block`. -/
def eval_block (host : Host) : Nat → LuaState → Rule → R
  | 0, l, _ => fatalFuel l
  | fu + 1, l, blk =>
    match blk with
    | .Block chunk => eval_chunk host fu l chunk
    | _ => (.error (.lua "Invalid rule passed"), l)

end

/-! ## Driver glue and observation helpers -/

/-- A host whose dispatch entry points are never exercised (pure
expressions call no functions). -/
def dummyHost : Host :=
  { do_call := fun _ s => (.error (.lua "no host"), s)
    funcall := fun _ _ s => (.error (.lua "no host"), s) }

/-- Modelled from the spec: the driver pipeline for an expression source
(main.rs is not among the sources).  §2: "driver feeds source text to
Parser → AST; driver hands AST root to Evaluator with a freshly
constructed Execution State".  For a bare expression the expression
grammar `exp` is the parser entry point and the node is evaluated with
`eval_exp` against a fresh state. -/
def runExp (src : String) : Except Err Value :=
  match exp 30 src.toList with
  | .ok r _ _ => (eval_exp dummyHost 30 (LuaState.new 256) r).1
  | .err _ => .error (.lua "parse error")
  | .panicked => .error (.fatal "parse aborted")

/-- The value of a literal expression node, when the node is one of the
four literal shapes that `eval_exp` returns directly. -/
def litVal? : Rule → Option Value
  | .Nil => some .nil
  | .Bool b => some (.bool b)
  | .Numeral n => some (.number n)
  | .LiteralString s => some (.luaString s)
  | _ => none

/-- A printable tag for a value, used by the probing host below. -/
def describeV : Value → String
  | .nil => "nil"
  | .bool b => cond b "true" "false"
  | .number n => toString n
  | .luaString s => s
  | .function _ => "function"
  | .table _ => "table"

/-- A description of a registry: its top cursor and its slots. -/
def describeReg (r : Registry) : String :=
  toString r.top ++ ";" ++ String.intercalate "," (r.array.map describeV)

/-- A host whose `do_call` reports, as an error message, the registry
exactly as the callee observes it on entry; used to witness what the
calling convention pushed. -/
def probeHost : Host :=
  { do_call := fun _ s => (.error (.lua (describeReg s.reg)), s)
    funcall := fun _ _ s => (.error (.lua "no host"), s) }

/-! ## Claim C1

The parser tags the source operator "<=" as 'g' and ">=" as 'l', but the
numeric operator table computes 'g' as greater-or-equal and 'l' as
less-or-equal; end to end, the source expression a <= b evaluates as a ≥ b
and a >= b as a ≤ b, contradicting the claim that the six comparisons are
mathematically correct for the source operator. -/

/-- C1: at the failing input, parsing "2 <= 1" produces the tag 'g' and
evaluating it yields Bool(true), although 2 ≤ 1 is false; dually
"2 >= 1" yields Bool(false) although 2 ≥ 1 is true.  The operator table
itself computes 'g' as ≥, so the parser's tag for "<=" is read back as the
opposite comparison. -/
theorem c1_le_ge_swapped :
    exp 30 "2 <= 1".toList =
      PRes.ok (Rule.Exp (Rule.BinOp 'g' (Rule.Exp (Rule.Numeral 2))
        (Rule.Exp (Rule.Numeral 1)))) [] true
    ∧ runExp "2 <= 1" = Except.ok (Value.bool true)
    ∧ runExp "2 >= 1" = Except.ok (Value.bool false)
    ∧ process_op_number 'g' 2 1 = Except.ok (Value.bool true)
    ∧ ¬ (2 : Int) ≤ 1 :=
  ⟨rfl, rfl, rfl, rfl, by decide⟩

/-! ## Claim C2

state.rs `Registry::push` appends unconditionally: `max_size` is stored by
`LuaState::new` but never consulted, so a push onto a registry already
holding `max_size` values succeeds instead of reporting an error. -/

/-- C2: pushing onto a registry whose `top` has reached `max_size`
succeeds anyway — the result is the grown registry with `top + 1`, and the
return type of `Registry.push` offers no error outcome at all. -/
theorem c2_push_ignores_capacity (r : Registry) (v : Value)
    (_h : r.max_size ≤ r.top) :
    Registry.push r v =
      (r.top + 1,
       { array := r.array ++ [v], top := r.top + 1, max_size := r.max_size }) :=
  rfl

/-- Witness for `c2_push_ignores_capacity` at a registry of capacity 0. -/
theorem c2_push_ignores_capacity_witness :
    (0 : Nat) ≤ 0 ∧
    Registry.push { array := [], top := 0, max_size := 0 } Value.nil =
      (1, { array := [Value.nil], top := 1, max_size := 0 }) :=
  ⟨Nat.le_refl 0,
   c2_push_ignores_capacity { array := [], top := 0, max_size := 0 } Value.nil
     (Nat.le_refl 0)⟩

/-! ## Claim C3: the calling convention of `global_funcall1` -/

lemma ensure_pop_ok_top (r : Registry) (v : Value) (r2 : Registry)
    (h : r.ensure_pop = (.ok v, r2)) : r2.top = r.top - 1 := by
  unfold Registry.ensure_pop Registry.pop at h
  by_cases h0 : r.top = 0
  · simp [h0] at h
  · simp [h0] at h
    cases hg : r.array.getLast? <;> simp [hg] at h
    exact h.2 ▸ rfl

lemma popWhileGo_ok_top (fu : Nat) :
    ∀ (oldtop : Nat) (r : Registry) (u : Unit) (r2 : Registry),
      popWhileGo oldtop fu r = (.ok u, r2) → oldtop ≤ r.top →
      r2.top = oldtop := by
  induction fu with
  | zero => intro oldtop r u r2 h _; simp [popWhileGo] at h
  | succ fu ih =>
    intro oldtop r u r2 h hle
    unfold popWhileGo at h
    by_cases hlt : oldtop < r.top
    · simp only [hlt, if_true] at h
      cases hp : r.ensure_pop with
      | mk res rp =>
        cases res with
        | ok w =>
          rw [hp] at h
          have htop := ensure_pop_ok_top r w rp hp
          exact ih oldtop rp u r2 h (by omega)
        | error e => rw [hp] at h; exact absurd h (by simp)
    · simp only [hlt, if_false] at h
      obtain ⟨_, rfl⟩ : (.ok u : Except Err Unit) = .ok u ∧ r = r2 := by
        exact ⟨rfl, (Prod.mk.injEq _ _ _ _ ▸ h).2⟩
      omega

lemma popWhile_ok_top (oldtop : Nat) (r : Registry) (u : Unit)
    (r2 : Registry) (h : popWhile oldtop r = (.ok u, r2))
    (hle : oldtop ≤ r.top) : r2.top = oldtop :=
  popWhileGo_ok_top (r.top + 1) oldtop r u r2 h hle

/-- C3: (a) every successful call through `global_funcall1` restores
`registry.top` to exactly its pre-call value, and (b) whenever the callee
reports a return count that does not satisfy
`oldtop + argcount + retnr = registry.top` exactly, the call reports the
calling-convention error. -/
theorem c3_funcall1_stack_balance :
    (∀ (host : Host) (name : String) (arg1 : Value) (l : LuaState)
       (v : Value) (l2 : LuaState),
       global_funcall1 host name arg1 l = (.ok v, l2) →
       l2.reg.top = l.reg.top)
    ∧
    (∀ (host : Host) (name : String) (arg1 : Value) (l : LuaState)
       (f : LuaFunction) (retnr : Nat) (l2 : LuaState),
       List.lookup name l.g.global = some (Value.function f) →
       host.do_call f { l with reg := (l.reg.push arg1).2 } = (.ok retnr, l2) →
       l.reg.top + 1 + retnr ≠ l2.reg.top →
       (global_funcall1 host name arg1 l).1 =
         .error (.lua ("func " ++ name ++ " should be return " ++
           toString retnr ++ " values"))) := by
  constructor
  · intro host name arg1 l v l2 h
    cases hl : List.lookup name l.g.global with
    | none => simp only [global_funcall1, hl] at h; exact absurd h (by simp)
    | some w =>
      cases w with
      | function func =>
        cases hd : host.do_call func { l with reg := (l.reg.push arg1).2 } with
        | mk dres lm =>
          cases dres with
          | error e =>
            simp only [global_funcall1, hl, hd] at h
            exact absurd h (by simp)
          | ok retnr =>
            simp only [global_funcall1, hl, hd] at h
            by_cases hbal : l.reg.top + 1 + retnr ≠ lm.reg.top
            · rw [if_pos hbal] at h; exact absurd h (by simp)
            · rw [if_neg hbal] at h
              push_neg at hbal
              by_cases h1 : retnr = 1
              · rw [if_pos h1] at h
                cases hp : lm.reg.ensure_pop with
                | mk pres r3 =>
                  cases pres with
                  | error e =>
                    simp only [hp] at h
                    exact absurd h (by simp)
                  | ok vret =>
                    simp only [hp] at h
                    have htop3 := ensure_pop_ok_top lm.reg vret r3 hp
                    cases hw : popWhile l.reg.top r3 with
                    | mk wres r4 =>
                      cases wres with
                      | error e =>
                        simp only [hw] at h
                        exact absurd h (by simp)
                      | ok u =>
                        simp only [hw] at h
                        have h2 := congrArg Prod.snd h
                        simp only [] at h2
                        have h4 := popWhile_ok_top l.reg.top r3 u r4 hw (by omega)
                        rw [← h2]
                        exact h4
              · rw [if_neg h1] at h
                cases hw : popWhile l.reg.top lm.reg with
                | mk wres r4 =>
                  cases wres with
                  | error e =>
                    simp only [hw] at h
                    exact absurd h (by simp)
                  | ok u =>
                    simp only [hw] at h
                    have h2 := congrArg Prod.snd h
                    simp only [] at h2
                    have h4 := popWhile_ok_top l.reg.top lm.reg u r4 hw (by omega)
                    rw [← h2]
                    exact h4
      | nil => simp only [global_funcall1, hl] at h; exact absurd h (by simp)
      | bool b => simp only [global_funcall1, hl] at h; exact absurd h (by simp)
      | number n => simp only [global_funcall1, hl] at h; exact absurd h (by simp)
      | luaString s => simp only [global_funcall1, hl] at h; exact absurd h (by simp)
      | table a => simp only [global_funcall1, hl] at h; exact absurd h (by simp)
  · intro host name arg1 l f retnr l2 hl hd hbal
    simp only [global_funcall1, hl, hd]
    rw [if_pos hbal]

/-- A state whose globals bind "f" to a (native) function, used to
exercise the call path. -/
def c3StateW : LuaState :=
  { g := { global := [("f", Value.function (.native 0))] },
    reg := { array := [], top := 0, max_size := 8 },
    frame_stack := [] }

/-- A host whose callee pushes one value and declares one return. -/
def c3HostOk : Host :=
  { do_call := fun _ s => (.ok 1, { s with reg := (s.reg.push Value.nil).2 })
    funcall := fun _ _ s => (.error (.lua "no host"), s) }

/-- A host whose callee pushes nothing yet declares five returns,
violating the convention. -/
def c3HostBad : Host :=
  { do_call := fun _ s => (.ok 5, s)
    funcall := fun _ _ s => (.error (.lua "no host"), s) }

/-- Witness for `c3_funcall1_stack_balance` at concrete hosts: a balanced
call restores the top cursor, and a five-return claim with no pushes is
reported as the calling-convention error. -/
theorem c3_funcall1_stack_balance_witness :
    (global_funcall1 c3HostOk "f" (Value.number 5) c3StateW).2.reg.top =
      c3StateW.reg.top
    ∧ (global_funcall1 c3HostBad "f" Value.nil c3StateW).1 =
        .error (.lua ("func " ++ "f" ++ " should be return " ++
          toString (5 : Nat) ++ " values")) :=
  ⟨c3_funcall1_stack_balance.1 c3HostOk "f" (Value.number 5) c3StateW
     Value.nil c3StateW rfl,
   c3_funcall1_stack_balance.2 c3HostBad "f" Value.nil c3StateW
     (LuaFunction.native 0) 5
     { g := { global := [("f", Value.function (.native 0))] },
       reg := { array := [Value.nil], top := 1, max_size := 8 },
       frame_stack := [] }
     rfl rfl (by decide)⟩

/-! ## Claim C9: an empty argument list still passes one argument, Nil -/

/-- C9: a call written `f()` parses to `Args Rule.Nop` and is dispatched
through `global_funcall1` with the single argument Nil (the caller's
argument count is the constant 1); consequently the callee observes the
registry with exactly one extra slot holding Nil on top of the caller's
stack, as reported verbatim by the probing host. -/
theorem c9_empty_args_passes_single_nil :
    (∀ (host : Host) (fu : Nat) (l : LuaState) (name : String),
       eval_funcall host (fu + 1) l
         (Rule.FunctionCall (Rule.Symbol name) (Rule.Args Rule.Nop)) =
       global_funcall1 host name Value.nil l)
    ∧ (∀ (l : LuaState) (name : String) (f : LuaFunction),
       List.lookup name l.g.global = some (Value.function f) →
       (global_funcall1 probeHost name Value.nil l).1 =
         .error (.lua (describeReg
           { array := l.reg.array ++ [Value.nil], top := l.reg.top + 1,
             max_size := l.reg.max_size }))) := by
  constructor
  · intro host fu l name
    rfl
  · intro l name f hl
    simp only [global_funcall1, hl, probeHost]
    rfl

/-- A state with a bound global function "g" and one value already on the
stack, used to observe what a call pushes. -/
def c9StateW : LuaState :=
  { g := { global := [("g", Value.function (.native 1))] },
    reg := { array := [Value.number 7], top := 1, max_size := 8 },
    frame_stack := [] }

/-- Witness for `c9_empty_args_passes_single_nil`: evaluating `g()` routes
through `global_funcall1` with the one argument Nil, and the probed callee
sees top = 2 with Nil in the new slot. -/
theorem c9_empty_args_passes_single_nil_witness :
    eval_funcall probeHost 4 c9StateW
      (Rule.FunctionCall (Rule.Symbol "g") (Rule.Args Rule.Nop)) =
      global_funcall1 probeHost "g" Value.nil c9StateW
    ∧ (global_funcall1 probeHost "g" Value.nil c9StateW).1 =
        .error (.lua (describeReg
          { array := [Value.number 7, Value.nil], top := 2, max_size := 8 })) :=
  ⟨c9_empty_args_passes_single_nil.1 probeHost 3 c9StateW "g",
   c9_empty_args_passes_single_nil.2 c9StateW "g" (LuaFunction.native 1) rfl⟩

/-! ## Claim C10: a local declaration outside any call frame -/

/-- C10: evaluating `local name = expr` (with a literal initializer) in a
state with no active call frame reports the error "Expected in function
def" and leaves the state exactly unchanged — no local or global binding
is created. -/
theorem c10_local_toplevel_error (host : Host) (fu : Nat) (l : LuaState)
    (name : String) (inner : Rule) (v : Value)
    (hframe : l.frame_stack = [])
    (hlit : litVal? inner = some v) :
    eval_stat host (fu + 2) l
      (Rule.Stat StatKind.LocalVar (some (Rule.Symbol name))
        (some (Rule.Exp inner)) none none none) =
      (.error (.lua "Expected in function def"), l) := by
  cases inner <;> simp [litVal?] at hlit <;>
    simp [eval_stat, eval_exp, LuaState.current_frame, hframe]

/-- Witness for `c10_local_toplevel_error` on a fresh state. -/
theorem c10_local_toplevel_error_witness :
    eval_stat dummyHost 5 (LuaState.new 8)
      (Rule.Stat StatKind.LocalVar (some (Rule.Symbol "x"))
        (some (Rule.Exp (Rule.Numeral 1))) none none none) =
      (.error (.lua "Expected in function def"), LuaState.new 8) :=
  c10_local_toplevel_error dummyHost 3 (LuaState.new 8) "x" (Rule.Numeral 1)
    (Value.number 1) rfl rfl

/-! ## Shared evaluation lemmas -/

/-- Evaluating a literal expression node yields its value and leaves the
state unchanged, at any positive fuel. -/
lemma eval_exp_lit (host : Host) (fu : Nat) (l : LuaState) (inner : Rule)
    (v : Value) (hlit : litVal? inner = some v) :
    eval_exp host (fu + 1) l (Rule.Exp inner) = (.ok v, l) := by
  cases inner <;> simp [litVal?] at hlit <;> subst hlit <;> simp [eval_exp]

/-! ## Claim C8: table constructors and keyed fields -/

/-- Walking a run of un-keyed literal fields appends their values in
source order and continues with the remaining fields. -/
lemma tc_fields_lits (host : Host) :
    ∀ (ps : List (Rule × Value)) (fu : Nat) (l : LuaState)
      (rest : List Rule) (acc : List Value),
      (∀ p ∈ ps, litVal? p.1 = some p.2) →
      ps.length + 1 ≤ fu →
      tc_fields host fu l
        (ps.map (fun p => Rule.Field Rule.Nop (Rule.Exp p.1)) ++ rest) acc =
      tc_fields host (fu - ps.length) l rest (acc ++ ps.map (fun p => p.2)) := by
  intro ps
  induction ps with
  | nil => intro fu l rest acc _ _; simp
  | cons p ps ih =>
    intro fu l rest acc hps hfu
    simp only [List.length_cons] at hfu
    obtain ⟨fu1, rfl⟩ : ∃ fu1, fu = fu1 + 1 := ⟨fu - 1, by omega⟩
    obtain ⟨fu2, rfl⟩ : ∃ fu2, fu1 = fu2 + 1 := ⟨fu1 - 1, by omega⟩
    have hp := hps p (List.mem_cons_self p ps)
    simp only [List.map_cons, List.cons_append]
    show tc_fields host (fu2 + 1 + 1) l
        (Rule.Field Rule.Nop (Rule.Exp p.1) ::
          (ps.map (fun p => Rule.Field Rule.Nop (Rule.Exp p.1)) ++ rest)) acc = _
    rw [show tc_fields host (fu2 + 1 + 1) l
        (Rule.Field Rule.Nop (Rule.Exp p.1) ::
          (ps.map (fun p => Rule.Field Rule.Nop (Rule.Exp p.1)) ++ rest)) acc =
        (match eval_exp host (fu2 + 1) l (Rule.Exp p.1) with
         | (.error e, l1) => (.error e, l1)
         | (.ok v, l1) =>
           tc_fields host (fu2 + 1) l1
             (ps.map (fun p => Rule.Field Rule.Nop (Rule.Exp p.1)) ++ rest)
             (acc ++ [v])) from rfl]
    rw [eval_exp_lit host fu2 l p.1 p.2 hp]
    show tc_fields host (fu2 + 1) l
        (ps.map (fun p => Rule.Field Rule.Nop (Rule.Exp p.1)) ++ rest)
        (acc ++ [p.2]) = _
    rw [ih (fu2 + 1) l rest (acc ++ [p.2])
      (fun q hq => hps q (List.mem_cons_of_mem p hq)) (by omega)]
    simp [Nat.succ_sub_succ]

/-- C8: (a) a symbol-keyed field (after any run of un-keyed literal
fields) makes the table constructor abort through the explicit
"not implemented" case; (b) a bracket-keyed field (whose key slot is an
expression node) is a reported error; (c) a constructor of only un-keyed
literal fields builds the table with exactly those values in source
order.  In no case is a keyed entry silently dropped or misplaced. -/
theorem c8_keyed_fields_fail :
    (∀ (host : Host) (fu : Nat) (l : LuaState) (ps : List (Rule × Value))
       (s : String) (kv : Rule) (post : List Rule),
       (∀ p ∈ ps, litVal? p.1 = some p.2) →
       ps.length + 2 ≤ fu →
       eval_tableconst host fu l
         (Rule.TableConst (Rule.FieldList
           (ps.map (fun p => Rule.Field Rule.Nop (Rule.Exp p.1)) ++
            Rule.Field (Rule.Symbol s) kv :: post))) =
         (.error (.fatal "not implemented: TODO: table"), l))
    ∧ (∀ (host : Host) (fu : Nat) (l : LuaState) (ps : List (Rule × Value))
       (ke kv : Rule) (post : List Rule),
       (∀ p ∈ ps, litVal? p.1 = some p.2) →
       ps.length + 2 ≤ fu →
       eval_tableconst host fu l
         (Rule.TableConst (Rule.FieldList
           (ps.map (fun p => Rule.Field Rule.Nop (Rule.Exp p.1)) ++
            Rule.Field (Rule.Exp ke) kv :: post))) =
         (.error (.lua "Unsupported rule for field key"), l))
    ∧ (∀ (host : Host) (fu : Nat) (l : LuaState) (ps : List (Rule × Value)),
       (∀ p ∈ ps, litVal? p.1 = some p.2) →
       ps.length + 2 ≤ fu →
       eval_tableconst host fu l
         (Rule.TableConst (Rule.FieldList
           (ps.map (fun p => Rule.Field Rule.Nop (Rule.Exp p.1))))) =
         (.ok (.table (ps.map (fun p => p.2))), l)) := by
  refine ⟨?_, ?_, ?_⟩
  · intro host fu l ps s kv post hps hfu
    obtain ⟨fu1, rfl⟩ : ∃ fu1, fu = fu1 + 1 := ⟨fu - 1, by omega⟩
    show tc_fields host fu1 l _ [] = _
    rw [tc_fields_lits host ps fu1 l _ [] hps (by omega)]
    obtain ⟨fu2, hp2⟩ : ∃ fu2, fu1 - ps.length = fu2 + 1 :=
      ⟨fu1 - ps.length - 1, by omega⟩
    rw [hp2]
    rfl
  · intro host fu l ps ke kv post hps hfu
    obtain ⟨fu1, rfl⟩ : ∃ fu1, fu = fu1 + 1 := ⟨fu - 1, by omega⟩
    show tc_fields host fu1 l _ [] = _
    rw [tc_fields_lits host ps fu1 l _ [] hps (by omega)]
    obtain ⟨fu2, hp2⟩ : ∃ fu2, fu1 - ps.length = fu2 + 1 :=
      ⟨fu1 - ps.length - 1, by omega⟩
    rw [hp2]
    rfl
  · intro host fu l ps hps hfu
    obtain ⟨fu1, rfl⟩ : ∃ fu1, fu = fu1 + 1 := ⟨fu - 1, by omega⟩
    show tc_fields host fu1 l _ [] = _
    rw [show (ps.map (fun p => Rule.Field Rule.Nop (Rule.Exp p.1))) =
        (ps.map (fun p => Rule.Field Rule.Nop (Rule.Exp p.1))) ++ [] by simp]
    rw [tc_fields_lits host ps fu1 l [] [] hps (by omega)]
    obtain ⟨fu2, hp2⟩ : ∃ fu2, fu1 - ps.length = fu2 + 1 :=
      ⟨fu1 - ps.length - 1, by omega⟩
    rw [hp2]
    simp [tc_fields]

/-- Witness for `c8_keyed_fields_fail` on concrete field lists. -/
theorem c8_keyed_fields_fail_witness :
    eval_tableconst dummyHost 6 (LuaState.new 4)
      (Rule.TableConst (Rule.FieldList
        [Rule.Field Rule.Nop (Rule.Exp (Rule.Numeral 1)),
         Rule.Field (Rule.Symbol "x") (Rule.Exp (Rule.Numeral 5))])) =
      (.error (.fatal "not implemented: TODO: table"), LuaState.new 4)
    ∧ eval_tableconst dummyHost 6 (LuaState.new 4)
        (Rule.TableConst (Rule.FieldList
          [Rule.Field Rule.Nop (Rule.Exp (Rule.Numeral 1)),
           Rule.Field (Rule.Exp (Rule.Numeral 9)) (Rule.Exp (Rule.Numeral 5))])) =
        (.error (.lua "Unsupported rule for field key"), LuaState.new 4)
    ∧ eval_tableconst dummyHost 6 (LuaState.new 4)
        (Rule.TableConst (Rule.FieldList
          [Rule.Field Rule.Nop (Rule.Exp (Rule.Numeral 1)),
           Rule.Field Rule.Nop (Rule.Exp (Rule.LiteralString "a"))])) =
        (.ok (.table [Value.number 1, Value.luaString "a"]), LuaState.new 4) := by
  refine ⟨?_, ?_, ?_⟩
  · exact c8_keyed_fields_fail.1 dummyHost 6 (LuaState.new 4)
      [(Rule.Numeral 1, Value.number 1)] "x" (Rule.Exp (Rule.Numeral 5)) []
      (by intro p hp; simp at hp; subst hp; rfl) (by decide)
  · exact c8_keyed_fields_fail.2.1 dummyHost 6 (LuaState.new 4)
      [(Rule.Numeral 1, Value.number 1)] (Rule.Numeral 9)
      (Rule.Exp (Rule.Numeral 5)) []
      (by intro p hp; simp at hp; subst hp; rfl) (by decide)
  · exact c8_keyed_fields_fail.2.2 dummyHost 6 (LuaState.new 4)
      [(Rule.Numeral 1, Value.number 1),
       (Rule.LiteralString "a", Value.luaString "a")]
      (by intro p hp; simp at hp; rcases hp with rfl | rfl <;> rfl) (by decide)

/-! ## Claim C6: if/elseif/else first-match selection -/

/-- Walking a run of falsy literal conditions skips them (and their
blocks), moving the selection index past them, without touching the
state. -/
lemma if_go_skip_falsy (host : Host) :
    ∀ (ps : List (Rule × Value)) (fu : Nat) (l : LuaState) (rest : List Rule)
      (blocks : List Rule) (i : Nat),
      (∀ p ∈ ps, litVal? p.1 = some p.2 ∧ truthy p.2 = false) →
      ps.length + 1 ≤ fu →
      if_go host fu l (ps.map (fun p => Rule.Exp p.1) ++ rest) blocks i =
        if_go host (fu - ps.length) l rest blocks (i + ps.length) := by
  intro ps
  induction ps with
  | nil => intro fu l rest blocks i _ _; simp
  | cons p ps ih =>
    obtain ⟨e, v⟩ := p
    intro fu l rest blocks i hps hfu
    simp only [List.length_cons] at hfu ⊢
    obtain ⟨hplit, hpfalse⟩ := hps (e, v) (List.mem_cons_self _ _)
    obtain ⟨fu1, rfl⟩ : ∃ fu1, fu = fu1 + 1 := ⟨fu - 1, by omega⟩
    obtain ⟨fu2, rfl⟩ : ∃ fu2, fu1 = fu2 + 1 := ⟨fu1 - 1, by omega⟩
    have hps' : ∀ q ∈ ps, litVal? q.1 = some q.2 ∧ truthy q.2 = false :=
      fun q hq => hps q (List.mem_cons_of_mem _ hq)
    simp only [List.map_cons, List.cons_append]
    rw [show if_go host (fu2 + 1 + 1) l
        (Rule.Exp e :: (ps.map (fun p => Rule.Exp p.1) ++ rest)) blocks i =
        (match eval_exp host (fu2 + 1) l (Rule.Exp e) with
         | (.error er, l1) => (.error er, l1)
         | (.ok w, l1) =>
           match w with
           | .nil => if_go host (fu2 + 1) l1
               (ps.map (fun p => Rule.Exp p.1) ++ rest) blocks (i + 1)
           | .bool bb =>
             if bb then
               match blocks.get? i with
               | some blk => eval_block host (fu2 + 1) l1 blk
               | none => (.error (.fatal "index out of bounds"), l1)
             else if_go host (fu2 + 1) l1
               (ps.map (fun p => Rule.Exp p.1) ++ rest) blocks (i + 1)
           | _ =>
             match blocks.get? i with
             | some blk => eval_block host (fu2 + 1) l1 blk
             | none => (.error (.fatal "index out of bounds"), l1)) from rfl]
    rw [eval_exp_lit host fu2 l e v hplit]
    have h1 : fu2 + 1 + 1 - (ps.length + 1) = fu2 + 1 - ps.length := by omega
    have h2 : i + (ps.length + 1) = i + 1 + ps.length := by omega
    cases v with
    | nil =>
      show if_go host (fu2 + 1) l
        (ps.map (fun p => Rule.Exp p.1) ++ rest) blocks (i + 1) = _
      rw [ih (fu2 + 1) l rest blocks (i + 1) hps' (by omega), h1, h2]
    | bool b =>
      simp only [truthy] at hpfalse
      subst hpfalse
      show if_go host (fu2 + 1) l
        (ps.map (fun p => Rule.Exp p.1) ++ rest) blocks (i + 1) = _
      rw [ih (fu2 + 1) l rest blocks (i + 1) hps' (by omega), h1, h2]
    | number n => simp [truthy] at hpfalse
    | luaString s => simp [truthy] at hpfalse
    | function f => simp [truthy] at hpfalse
    | table a => simp [truthy] at hpfalse

/-- C6: (a) with any run of falsy literal conditions first, the first
truthy condition (a truthy literal, or the trailing no-op encoding the
else branch) selects exactly the block at its own index — later
conditions and blocks are never evaluated — and the statement's result is
that block's result; (b) when every condition is a falsy literal the
statement evaluates to Nil with the state unchanged. -/
theorem c6_if_first_truthy :
    (∀ (host : Host) (cb fu : Nat) (l : LuaState) (ps : List (Rule × Value))
       (sel : Rule) (post : List Rule) (blocks : List Rule) (bk : Rule)
       (resB : Except Err Value) (lB : LuaState),
       (∀ p ∈ ps, litVal? p.1 = some p.2 ∧ truthy p.2 = false) →
       ((∃ inner v, sel = Rule.Exp inner ∧ litVal? inner = some v ∧
           truthy v = true) ∨ sel = Rule.Nop) →
       blocks.get? ps.length = some bk →
       (∀ f, cb ≤ f → eval_block host f l bk = (resB, lB)) →
       ps.length + cb + 3 ≤ fu →
       eval_ifthen host fu l
         (Rule.IfStat (ps.map (fun p => Rule.Exp p.1) ++ sel :: post) blocks) =
         (resB, lB))
    ∧ (∀ (host : Host) (fu : Nat) (l : LuaState) (ps : List (Rule × Value))
       (blocks : List Rule),
       (∀ p ∈ ps, litVal? p.1 = some p.2 ∧ truthy p.2 = false) →
       ps.length + 2 ≤ fu →
       eval_ifthen host fu l
         (Rule.IfStat (ps.map (fun p => Rule.Exp p.1)) blocks) =
         (.ok Value.nil, l)) := by
  constructor
  · intro host cb fu l ps sel post blocks bk resB lB hps hsel hbk hbkF hfu
    obtain ⟨fu1, rfl⟩ : ∃ fu1, fu = fu1 + 1 := ⟨fu - 1, by omega⟩
    show if_go host fu1 l
      (ps.map (fun p => Rule.Exp p.1) ++ sel :: post) blocks 0 = _
    rw [if_go_skip_falsy host ps fu1 l (sel :: post) blocks 0 hps (by omega)]
    rw [show 0 + ps.length = ps.length by omega]
    obtain ⟨fu2, hf2⟩ : ∃ fu2, fu1 - ps.length = fu2 + 1 :=
      ⟨fu1 - ps.length - 1, by omega⟩
    have hcb : cb ≤ fu2 := by omega
    have hpos : 1 ≤ fu2 := by omega
    rw [hf2]
    obtain ⟨fu3, rfl⟩ : ∃ fu3, fu2 = fu3 + 1 := ⟨fu2 - 1, by omega⟩
    rcases hsel with ⟨inner, v, rfl, hlit, htr⟩ | rfl
    · rw [show if_go host (fu3 + 1 + 1) l (Rule.Exp inner :: post) blocks
          ps.length =
          (match eval_exp host (fu3 + 1) l (Rule.Exp inner) with
           | (.error er, l1) => (.error er, l1)
           | (.ok w, l1) =>
             match w with
             | .nil => if_go host (fu3 + 1) l1 post blocks (ps.length + 1)
             | .bool bb =>
               if bb then
                 match blocks.get? ps.length with
                 | some blk => eval_block host (fu3 + 1) l1 blk
                 | none => (.error (.fatal "index out of bounds"), l1)
               else if_go host (fu3 + 1) l1 post blocks (ps.length + 1)
             | _ =>
               match blocks.get? ps.length with
               | some blk => eval_block host (fu3 + 1) l1 blk
               | none => (.error (.fatal "index out of bounds"), l1)) from rfl]
      rw [eval_exp_lit host fu3 l inner v hlit]
      cases v with
      | nil => simp [truthy] at htr
      | bool b =>
        simp only [truthy] at htr
        subst htr
        show (match blocks.get? ps.length with
              | some blk => eval_block host (fu3 + 1) l blk
              | none => (.error (.fatal "index out of bounds"), l)) = _
        rw [hbk]
        exact hbkF (fu3 + 1) hcb
      | number n =>
        show (match blocks.get? ps.length with
              | some blk => eval_block host (fu3 + 1) l blk
              | none => (.error (.fatal "index out of bounds"), l)) = _
        rw [hbk]
        exact hbkF (fu3 + 1) hcb
      | luaString s =>
        show (match blocks.get? ps.length with
              | some blk => eval_block host (fu3 + 1) l blk
              | none => (.error (.fatal "index out of bounds"), l)) = _
        rw [hbk]
        exact hbkF (fu3 + 1) hcb
      | function f =>
        show (match blocks.get? ps.length with
              | some blk => eval_block host (fu3 + 1) l blk
              | none => (.error (.fatal "index out of bounds"), l)) = _
        rw [hbk]
        exact hbkF (fu3 + 1) hcb
      | table a =>
        show (match blocks.get? ps.length with
              | some blk => eval_block host (fu3 + 1) l blk
              | none => (.error (.fatal "index out of bounds"), l)) = _
        rw [hbk]
        exact hbkF (fu3 + 1) hcb
    · show (match blocks.get? ps.length with
            | some blk => eval_block host (fu3 + 1) l blk
            | none => (.error (.fatal "index out of bounds"), l)) = _
      rw [hbk]
      exact hbkF (fu3 + 1) hcb
  · intro host fu l ps blocks hps hfu
    obtain ⟨fu1, rfl⟩ : ∃ fu1, fu = fu1 + 1 := ⟨fu - 1, by omega⟩
    show if_go host fu1 l (ps.map (fun p => Rule.Exp p.1)) blocks 0 = _
    rw [show (ps.map (fun p => Rule.Exp p.1)) =
        ps.map (fun p => Rule.Exp p.1) ++ ([] : List Rule) by simp]
    rw [if_go_skip_falsy host ps fu1 l [] blocks 0 hps (by omega)]
    obtain ⟨fu2, hf2⟩ : ∃ fu2, fu1 - ps.length = fu2 + 1 :=
      ⟨fu1 - ps.length - 1, by omega⟩
    rw [hf2]
    rfl

/-- A block of the form `do return n end`, used to distinguish which
branch an if-chain selected. -/
def c6Block (n : Int) : Rule :=
  Rule.Block (Rule.Chunk [] (some (Rule.LastStat (Rule.Exp (Rule.Numeral n)))))

/-- Witness for `c6_if_first_truthy` at the spec's example: with
conditions false, true, true, else, exactly the first true branch's block
(returning 1) runs. -/
theorem c6_if_first_truthy_witness :
    eval_ifthen dummyHost 12 (LuaState.new 4)
      (Rule.IfStat
        [Rule.Exp (Rule.Bool false), Rule.Exp (Rule.Bool true),
         Rule.Exp (Rule.Bool true), Rule.Nop]
        [c6Block 0, c6Block 1, c6Block 2, c6Block 3]) =
      (.ok (Value.number 1), LuaState.new 4) :=
  c6_if_first_truthy.1 dummyHost 3 12 (LuaState.new 4)
    [(Rule.Bool false, Value.bool false)] (Rule.Exp (Rule.Bool true))
    [Rule.Exp (Rule.Bool true), Rule.Nop]
    [c6Block 0, c6Block 1, c6Block 2, c6Block 3] (c6Block 1)
    (.ok (Value.number 1)) (LuaState.new 4)
    (by intro p hp; simp at hp; subst hp; exact ⟨rfl, rfl⟩)
    (Or.inl ⟨Rule.Bool true, Value.bool true, rfl, rfl, rfl⟩)
    rfl
    (by
      intro f hf
      obtain ⟨d, rfl⟩ : ∃ d, f = d + 3 := ⟨f - 3, by omega⟩
      rfl)
    (by decide)

/-! ## Claim C7: generic for-in iteration count and scope rollback -/

/-- The sequence of control values fed to a state-independent iterator:
the next control value is the first value the iterator returned for the
previous one. -/
def keyAt (g : Value → List Value) (k0 : Value) : Nat → Value
  | 0 => k0
  | i + 1 => (g (keyAt g k0 i)).headD Value.nil

/-- One iteration of the generic-for body, composed exactly as the loop in
`eval_stat` composes it: read the new control value, checkpoint the stack,
bind the loop variables, run the body (whose fuel-independent effect is
`bodyF`), and close the block scope back to the checkpoint. -/
def forin_step (vars : List Rule) (bodyF : LuaState → Value × LuaState)
    (g : Value → List Value) (s : LuaState) (k : Value) : LuaState × Value :=
  let values := g k
  let k2 := values.headD Value.nil
  let oldtop := s.start_block_raw
  let s1 := (forin_assign s vars.reverse values).2
  let s2 := (bodyF s1).2
  let s3 := (s2.end_block_raw oldtop).2
  (s3, k2)

/-- `m`-fold composition of `forin_step`. -/
def forin_iter (vars : List Rule) (bodyF : LuaState → Value × LuaState)
    (g : Value → List Value) : Nat → LuaState → Value → LuaState × Value
  | 0, s, k => (s, k)
  | m + 1, s, k =>
    forin_iter vars bodyF g m (forin_step vars bodyF g s k).1
      (forin_step vars bodyF g s k).2

lemma getLast?_of_ne_nil {α : Type} (xs : List α) (h : xs ≠ []) :
    ∃ x, xs.getLast? = some x := by
  cases xs with
  | nil => exact absurd rfl h
  | cons a as =>
    cases hq : (a :: as).getLast? with
    | some x => exact ⟨x, rfl⟩
    | none => simp at hq

lemma assign_local_props (l : LuaState) (n : String) (v : Value) :
    l.reg.top ≤ (l.assign_local n v).2.reg.top ∧
    (l.frame_stack ≠ [] →
      (l.assign_local n v).1 = .ok () ∧
      (l.assign_local n v).2.frame_stack ≠ []) := by
  cases hq : l.frame_stack.getLast? with
  | none =>
    simp only [LuaState.assign_local, hq]
    refine ⟨Nat.le_refl _, fun hne => ?_⟩
    obtain ⟨x, hx⟩ := getLast?_of_ne_nil l.frame_stack hne
    rw [hq] at hx
    exact absurd hx (by simp)
  | some f =>
    cases hw : List.lookup n f.env with
    | some idx =>
      simp only [LuaState.assign_local, hq, hw]
      exact ⟨Nat.le_refl _, fun hne => ⟨trivial, hne⟩⟩
    | none =>
      simp only [LuaState.assign_local, hq, hw]
      refine ⟨Nat.le_succ _, fun hne => ⟨trivial, ?_⟩⟩
      simp

lemma forin_assign_top (names : List Rule) :
    ∀ (l : LuaState) (vals : List Value),
      l.reg.top ≤ (forin_assign l names vals).2.reg.top := by
  induction names with
  | nil => intro l vals; exact Nat.le_refl _
  | cons nm rest ih =>
    intro l vals
    cases nm
    case Symbol s =>
      cases hg : vals.getLast? with
      | none => simp only [forin_assign, hg]; exact Nat.le_refl _
      | some v =>
        cases ha : l.assign_local s v with
        | mk ares l2 =>
          have h1 := (assign_local_props l s v).1
          rw [ha] at h1
          cases ares with
          | error e => simp only [forin_assign, hg, ha]; exact h1
          | ok u =>
            simp only [forin_assign, hg, ha]
            exact Nat.le_trans h1 (ih l2 vals.dropLast)
    all_goals simp [forin_assign]

lemma forin_assign_props (names : List Rule) :
    ∀ (l : LuaState) (vals : List Value),
      (∀ r ∈ names, ∃ s, r = Rule.Symbol s) →
      names.length ≤ vals.length →
      l.frame_stack ≠ [] →
      (forin_assign l names vals).1 = .ok () ∧
      (forin_assign l names vals).2.frame_stack ≠ [] := by
  induction names with
  | nil => intro l vals _ _ hfr; exact ⟨rfl, hfr⟩
  | cons nm rest ih =>
    intro l vals hsym hlen hfr
    obtain ⟨s, rfl⟩ := hsym nm (List.mem_cons_self _ _)
    have hvne : vals ≠ [] := by
      intro hv
      rw [hv] at hlen
      simp at hlen
    obtain ⟨v, hg⟩ := getLast?_of_ne_nil vals hvne
    cases ha : l.assign_local s v with
    | mk ares l2 =>
      have hp := (assign_local_props l s v).2 hfr
      rw [ha] at hp
      obtain ⟨hok, hfr2⟩ := hp
      cases ares with
      | error e => exact absurd hok (by simp)
      | ok u =>
        simp only [forin_assign, hg, ha]
        refine ih l2 vals.dropLast
          (fun r hr => hsym r (List.mem_cons_of_mem _ hr)) ?_ hfr2
        have := List.length_dropLast vals
        simp only [List.length_cons] at hlen
        omega

lemma end_block_raw_props (l : LuaState) (oldtop : Nat)
    (h : oldtop ≤ l.reg.top) :
    (l.end_block_raw oldtop).1 = .ok () ∧
    (l.end_block_raw oldtop).2.reg.top = oldtop ∧
    ((l.end_block_raw oldtop).2.frame_stack = [] → l.frame_stack = []) := by
  cases hq : l.frame_stack.getLast? with
  | none =>
    simp only [LuaState.end_block_raw, hq, if_neg (Nat.not_lt.mpr h)]
    exact ⟨trivial, trivial, fun hh => hh⟩
  | some f =>
    simp only [LuaState.end_block_raw, hq, if_neg (Nat.not_lt.mpr h)]
    refine ⟨trivial, trivial, fun hh => ?_⟩
    simp at hh

lemma keyAt_shift (g : Value → List Value) (k : Value) :
    ∀ i, keyAt g ((g k).headD Value.nil) i = keyAt g k (i + 1) := by
  intro i
  induction i with
  | zero => rfl
  | succ i ih => show (g (keyAt g _ i)).headD _ = _; rw [ih]; rfl

/-- Unfolding one non-terminating round of the for-in loop: when the
iterator (with the loop's fixed iterator value and collection) returns a
non-Nil first value, the loop binds, runs the body, closes the scope, and
continues with that value as the new control. -/
lemma forin_loop_step_eq (host : Host) (fu : Nat) (s : LuaState)
    (next coll k : Value) (vars : List Rule) (body : Rule)
    (v0 : Value) (vs : List Value)
    (hfc : host.funcall next [coll, k] s = (.ok (v0 :: vs), s))
    (hv0 : v0 ≠ Value.nil) :
    forin_loop host (fu + 1) s next coll k vars (some body) =
      (match forin_assign s vars.reverse (v0 :: vs) with
       | (.error e, l2) => (.error e, l2)
       | (.ok _, l2) =>
         match eval_block host fu l2 body with
         | (.error e, l3) => (.error e, l3)
         | (.ok _, l3) =>
           match l3.end_block_raw s.reg.top with
           | (.error e, l4) => (.error e, l4)
           | (.ok _, l4) => forin_loop host fu l4 next coll v0 vars (some body)) := by
  rw [show forin_loop host (fu + 1) s next coll k vars (some body) =
      (match host.funcall next [coll, k] s with
       | (.error e, l1) => (.error e, l1)
       | (.ok values, l1) =>
         match values.head? with
         | none => (.error (.fatal "index out of bounds"), l1)
         | some w0 =>
           match w0 with
           | .nil => (.ok .nil, l1)
           | _ =>
             match forin_assign l1 vars.reverse values with
             | (.error e, l2) => (.error e, l2)
             | (.ok _, l2) =>
               match eval_block host fu l2 body with
               | (.error e, l3) => (.error e, l3)
               | (.ok _, l3) =>
                 match l3.end_block_raw l1.start_block_raw with
                 | (.error e, l4) => (.error e, l4)
                 | (.ok _, l4) =>
                   forin_loop host fu l4 next coll w0 vars (some body)) from rfl]
  rw [hfc]
  cases v0 with
  | nil => exact absurd rfl hv0
  | bool b => rfl
  | number n => rfl
  | luaString str => rfl
  | function f => rfl
  | table a => rfl

/-- The for-in loop against a pure iterator: if the iterator first
returns Nil on round `m` (counting from 0), the loop performs exactly `m`
body iterations and ends without error in the `m`-fold iterated state. -/
lemma forin_loop_spec (host : Host) (g : Value → List Value)
    (next coll : Value) (vars : List Rule) (body : Rule)
    (bodyF : LuaState → Value × LuaState) (cb : Nat)
    (hF : ∀ s k, host.funcall next [coll, k] s = (.ok (g k), s))
    (hvars : ∀ r ∈ vars, ∃ s, r = Rule.Symbol s)
    (hbody : ∀ f s, cb ≤ f →
      eval_block host f s body = (.ok (bodyF s).1, (bodyF s).2))
    (hbtop : ∀ s, s.reg.top ≤ ((bodyF s).2).reg.top)
    (hbfr : ∀ s, s.frame_stack ≠ [] → ((bodyF s).2).frame_stack ≠ []) :
    ∀ (m : Nat) (k : Value) (s : LuaState) (fu : Nat),
      s.frame_stack ≠ [] →
      (∀ i, i < m → (g (keyAt g k i)).headD Value.nil ≠ Value.nil ∧
        g (keyAt g k i) ≠ [] ∧ vars.length ≤ (g (keyAt g k i)).length) →
      (g (keyAt g k m)).head? = some Value.nil →
      m + cb + 2 ≤ fu →
      forin_loop host fu s next coll k vars (some body) =
        (.ok Value.nil, (forin_iter vars bodyF g m s k).1) := by
  intro m
  induction m with
  | zero =>
    intro k s fu _ _ hlast hfu
    obtain ⟨fu1, rfl⟩ : ∃ fu1, fu = fu1 + 1 := ⟨fu - 1, by omega⟩
    simp only [keyAt] at hlast
    obtain ⟨vs, hval⟩ : ∃ vs, g k = Value.nil :: vs := by
      cases hgk : g k with
      | nil => rw [hgk] at hlast; simp at hlast
      | cons a as =>
        rw [hgk] at hlast
        simp at hlast
        exact ⟨as, by rw [hlast]⟩
    have hfc := hF s k
    rw [hval] at hfc
    simp only [forin_loop, hfc]
    rfl
  | succ m ih =>
    intro k s fu hfr hpre hlast hfu
    obtain ⟨fu1, rfl⟩ : ∃ fu1, fu = fu1 + 1 := ⟨fu - 1, by omega⟩
    obtain ⟨h0ne, h0nil, h0len⟩ := hpre 0 (by omega)
    simp only [keyAt] at h0ne h0nil h0len
    obtain ⟨v0, vs, hval⟩ : ∃ v0 vs, g k = v0 :: vs := by
      cases hgk : g k with
      | nil => exact absurd hgk h0nil
      | cons a as => exact ⟨a, as, rfl⟩
    have hv0ne : v0 ≠ Value.nil := by
      have hx := h0ne
      rw [hval] at hx
      simpa using hx
    have hfc := hF s k
    rw [hval] at hfc
    rw [forin_loop_step_eq host fu1 s next coll k vars body v0 vs hfc hv0ne]
    have hA := forin_assign_props vars.reverse s (v0 :: vs)
      (fun r hr => hvars r (List.mem_reverse.mp hr))
      (by rw [List.length_reverse, ← hval]; exact h0len)
      hfr
    obtain ⟨hAok, hAfr⟩ := hA
    cases hAc : forin_assign s vars.reverse (v0 :: vs) with
    | mk ares l2 =>
      rw [hAc] at hAok hAfr
      simp only [] at hAok hAfr
      subst hAok
      simp only [hAc]
      rw [hbody fu1 l2 (by omega)]
      have htops : s.reg.top ≤ l2.reg.top := by
        have hx := forin_assign_top vars.reverse s (v0 :: vs)
        rw [hAc] at hx
        exact hx
      have htop2 : s.reg.top ≤ ((bodyF l2).2).reg.top :=
        Nat.le_trans htops (hbtop l2)
      obtain ⟨hEok, hEtop, hEfr⟩ :=
        end_block_raw_props ((bodyF l2).2) s.reg.top htop2
      cases hEc : ((bodyF l2).2).end_block_raw s.reg.top with
      | mk eres l4 =>
        rw [hEc] at hEok hEtop hEfr
        simp only [] at hEok hEtop hEfr
        subst hEok
        simp only [hEc]
        have hfr4 : l4.frame_stack ≠ [] := by
          intro hnil
          exact (hbfr l2 hAfr) (hEfr hnil)
        have hk1 : (g k).headD Value.nil = v0 := by rw [hval]; simp
        have hshift : ∀ i, keyAt g v0 i = keyAt g k (i + 1) := by
          intro i
          rw [← hk1]
          exact keyAt_shift g k i
        rw [ih v0 l4 fu1 hfr4
          (fun i hi => by rw [hshift i]; exact hpre (i + 1) (by omega))
          (by rw [hshift m]; exact hlast)
          (by omega)]
        have hstep : forin_step vars bodyF g s k = (l4, v0) := by
          simp only [forin_step, LuaState.start_block_raw, hval, hAc, hEc]
          simp
        rw [show forin_iter vars bodyF g (m + 1) s k =
            forin_iter vars bodyF g m (forin_step vars bodyF g s k).1
              (forin_step vars bodyF g s k).2 from rfl]
        rw [hstep]

/-- C7: (a) when the iterator is a pure function of the control value and
first returns Nil on its n-th invocation, the for-in loop runs the body
exactly n − 1 times (the final state is the (n−1)-fold `forin_step`
iterate) and then terminates without error with value Nil; (b) each
iteration leaves `registry.top` exactly where it found it — the block
scope is rolled back to its pre-iteration checkpoint. -/
theorem c7_forin_runs_n_minus_1 :
    (∀ (host : Host) (g : Value → List Value) (next coll : Value)
       (vars : List Rule) (body : Rule) (bodyF : LuaState → Value × LuaState)
       (cb n : Nat) (k0 : Value) (l : LuaState) (fu : Nat),
       (∀ s k, host.funcall next [coll, k] s = (.ok (g k), s)) →
       (∀ r ∈ vars, ∃ s, r = Rule.Symbol s) →
       (∀ f s, cb ≤ f →
         eval_block host f s body = (.ok (bodyF s).1, (bodyF s).2)) →
       (∀ s, s.reg.top ≤ ((bodyF s).2).reg.top) →
       (∀ s, s.frame_stack ≠ [] → ((bodyF s).2).frame_stack ≠ []) →
       l.frame_stack ≠ [] →
       1 ≤ n →
       (∀ i, i < n - 1 → (g (keyAt g k0 i)).headD Value.nil ≠ Value.nil ∧
         g (keyAt g k0 i) ≠ [] ∧ vars.length ≤ (g (keyAt g k0 i)).length) →
       (g (keyAt g k0 (n - 1))).head? = some Value.nil →
       n + cb + 1 ≤ fu →
       forin_loop host fu l next coll k0 vars (some body) =
         (.ok Value.nil, (forin_iter vars bodyF g (n - 1) l k0).1))
    ∧ (∀ (vars : List Rule) (bodyF : LuaState → Value × LuaState)
       (g : Value → List Value) (s : LuaState) (k : Value),
       (∀ s2, s2.reg.top ≤ ((bodyF s2).2).reg.top) →
       (forin_step vars bodyF g s k).1.reg.top = s.reg.top) := by
  constructor
  · intro host g next coll vars body bodyF cb n k0 l fu
      hF hvars hbody hbtop hbfr hl hn hpre hlast hfu
    exact forin_loop_spec host g next coll vars body bodyF cb
      hF hvars hbody hbtop hbfr (n - 1) k0 l fu hl hpre hlast (by omega)
  · intro vars bodyF g s k hbtop
    have h1 : s.reg.top ≤ ((bodyF ((forin_assign s vars.reverse (g k)).2)).2).reg.top :=
      Nat.le_trans (forin_assign_top vars.reverse s (g k))
        (hbtop ((forin_assign s vars.reverse (g k)).2))
    exact (end_block_raw_props _ s.reg.top h1).2.1

/-- A pure counting iterator: control values 0 and 1 yield the next
number; control value 2 yields Nil, ending the loop on the third call. -/
def c7G : Value → List Value := fun k =>
  match k with
  | .number i => if i < 2 then [.number (i + 1)] else [.nil]
  | _ => [.nil]

/-- A host whose `funcall` runs `c7G` on the control argument. -/
def c7Host : Host :=
  { do_call := fun _ s => (.error (.lua "no host"), s)
    funcall := fun _ args s =>
      match args with
      | [_, k] => (.ok (c7G k), s)
      | _ => (.ok [Value.nil], s) }

/-- A state with one (empty) active call frame. -/
def c7StateW : LuaState :=
  { g := { global := [] },
    reg := { array := [], top := 0, max_size := 8 },
    frame_stack := [{ env := [], to_return := false }] }

/-- Witness for `c7_forin_runs_n_minus_1`: with the iterator returning Nil
on its third call, the loop runs the (empty) body exactly twice and
terminates without error. -/
theorem c7_forin_runs_n_minus_1_witness :
    forin_loop c7Host 10 c7StateW (Value.function (.native 9)) Value.nil
      (Value.number 0) [Rule.Symbol "x"]
      (some (Rule.Block (Rule.Chunk [] none))) =
      (.ok Value.nil,
       (forin_iter [Rule.Symbol "x"] (fun s => (Value.nil, s)) c7G 2
         c7StateW (Value.number 0)).1) :=
  c7_forin_runs_n_minus_1.1 c7Host c7G (Value.function (.native 9)) Value.nil
    [Rule.Symbol "x"] (Rule.Block (Rule.Chunk [] none))
    (fun s => (Value.nil, s)) 3 3 (Value.number 0) c7StateW 10
    (fun _ _ => rfl)
    (by intro r hr; simp at hr; exact ⟨"x", hr⟩)
    (by
      intro f s hf
      obtain ⟨d, rfl⟩ : ∃ d, f = d + 3 := ⟨f - 3, by omega⟩
      rfl)
    (fun _ => Nat.le_refl _)
    (fun _ h => h)
    (by simp [c7StateW])
    (by omega)
    (by
      intro i hi
      match i, hi with
      | 0, _ =>
        exact ⟨fun h => Value.noConfusion h, fun h => List.noConfusion h,
          Nat.le_refl _⟩
      | 1, _ =>
        exact ⟨fun h => Value.noConfusion h, fun h => List.noConfusion h,
          Nat.le_refl _⟩)
    rfl
    (by omega)

/-! ## Claim C4

parser.rs `numeral` feeds the digit string through
`str::parse::<i32>().unwrap()`; a digit sequence whose value exceeds
i32::MAX (2147483647) makes the unwrap abort the process, so `parse` is
not total over all input strings. -/

/-- C4: at the failing input "2147483648" (i32::MAX + 1) the numeral
parser aborts rather than returning an AST or a parse error, while
"2147483647" still parses. -/
theorem c4_numeral_overflow_aborts :
    numeral "2147483648".toList = PRes.panicked
    ∧ numeral "2147483647".toList =
        PRes.ok (Rule.Numeral 2147483647) [] true :=
  ⟨rfl, rfl⟩

/-! ## Claim C5 -/

/-- C5: each precedence level folds left and multiplicative binds tighter
than additive: "1 - 2 - 3" parses as (1-2)-3 and evaluates to -4, and
"2 + 3 * 4" evaluates to 14. -/
theorem c5_left_fold_and_precedence :
    runExp "1 - 2 - 3" = Except.ok (Value.number (-4))
    ∧ runExp "2 + 3 * 4" = Except.ok (Value.number 14)
    ∧ exp 30 "1 - 2 - 3".toList =
        PRes.ok (Rule.Exp (Rule.BinOp '-'
          (Rule.Exp (Rule.BinOp '-' (Rule.Exp (Rule.Numeral 1))
            (Rule.Exp (Rule.Numeral 2))))
          (Rule.Exp (Rule.Numeral 3)))) [] true :=
  ⟨rfl, rfl, rfl⟩

end Purua
